import Mathlib

/-!
# samp-plugin-profiler: call-stack reconstruction and statistics engine

A shallow embedding of `src/src/profiler.cpp` and of the loading path of
`src/src/plugin.cpp`.

Conventions of the embedding

* `cell` values (frame pointers, code addresses, indices) are `Int`; the two
  places where the source does arithmetic on them (`cip - 2*sizeof(cell)` and
  `stk - 3*sizeof(cell)`) wrap to the width of a cell through `toCell`.
* Call counts and times are `Nat`: the accumulators of the source are wide
  machine integers whose overflow is out of reach of the properties below.
* The AMX SDK header `amx/amx.h` is not part of the sources at hand; the
  constants the code takes from it are gathered in `AmxSdk` and every
  definition that uses one takes the SDK as a parameter.
* Real time is not modelled. The timer carried by a call frame is represented
  by the interval it reports when the frame is popped.
* Pointers to AMX instances are handles (`Nat`); the AMX behind a handle lives
  in `World.amx`.
* In a run of the engine (`runEvents`) an explicit call signal is the entry
  that `Exec` or `Callback` makes before the host call and the exit it makes
  after it; the events in between are what the host call does.
-/

namespace samp_profiler

/-! ## Host virtual machine -/

/-- Constants and sizes that the code takes from the AMX SDK header
`amx/amx.h`, which is not among the sources. They are parameters of the
embedding. -/
structure AmxSdk where
  AMX_ERR_NONE : Int
  AMX_EXEC_MAIN : Int
  AMX_FLAG_DEBUG : Nat
  AMX_FLAG_NOCHECKS : Nat
  sizeof_cell : Nat

/-- The values of the Pawn 3 SDK with 32-bit cells, used for concrete
evaluations only. -/
def pawnSdk : AmxSdk :=
  { AMX_ERR_NONE := 0
    AMX_EXEC_MAIN := -1
    AMX_FLAG_DEBUG := 2
    AMX_FLAG_NOCHECKS := 16
    sizeof_cell := 4 }

/-- Conversion of an integer to a `cell`: two-complement wrap-around to
`8 * sizeof(cell)` bits. -/
def toCell (sdk : AmxSdk) (x : Int) : Int :=
  let m : Int := 2 ^ (8 * sdk.sizeof_cell)
  (x + m / 2) % m - m / 2

/-- A debug hook is a function pointer of the host; `profilerDebug` is the
trampoline `::Debug` of `profiler.cpp`, every other hook is named by a
number. -/
inductive DebugHook where
  | profilerDebug
  | other (id : Nat)
deriving DecidableEq, Repr

/-- The fields of `struct AMX` that the profiler reads or writes. `code`
gives the cell stored in the code section at a byte offset (what
`ReadAmxCode` dereferences), `flags` is what `amx_Flags` reports and `debug`
is the hook slot written by `amx_SetDebugHook` (`none` is the null
pointer). -/
structure AMX where
  frm : Int
  stp : Int
  stk : Int
  cip : Int
  flags : Nat
  debug : Option DebugHook
  code : Int → Int

/-- Reads from a code section at a given location. -/
def ReadAmxCode (amx : AMX) (location : Int) : Int :=
  amx.code location

/-- The host call `amx_SetDebugHook`. -/
def amx_SetDebugHook (amx : AMX) (hook : Option DebugHook) : AMX :=
  { amx with debug := hook }

/-! ## Function identity and statistics record -/

/-- The tag of a function identity (`Function::Type`). -/
inductive FunctionType where
  | NATIVE
  | PUBLIC
  | NORMAL
deriving DecidableEq, Repr

/-- Modelled from the spec: class `Function` (`function.h` is absent). One
object carries both the identity (tag and numeric key) and the statistics
of the function: number of calls, cumulative total time and cumulative child
time. -/
structure Function where
  type : FunctionType
  address : Int
  num_calls : Nat
  time : Nat
  child_time : Nat
deriving DecidableEq, Repr

/-- Modelled from the spec: the constructor behind the three factories of
`Function` (`function.h` is absent): a fresh identity with no call and no
time recorded. -/
def Function.create (type : FunctionType) (key : Int) : Function :=
  { type := type, address := key, num_calls := 0, time := 0, child_time := 0 }

/-- Modelled from the spec: `Function::Native(index)`. -/
def Function.Native (index : Int) : Function :=
  Function.create FunctionType.NATIVE index

/-- Modelled from the spec: `Function::Public(index)`. -/
def Function.Public (index : Int) : Function :=
  Function.create FunctionType.PUBLIC index

/-- Modelled from the spec: `Function::Normal(address)`. -/
def Function.Normal (address : Int) : Function :=
  Function.create FunctionType.NORMAL address

/-- Modelled from the spec: `Function::index()`, the numeric key. -/
def Function.index (f : Function) : Int :=
  f.address

/-- Modelled from the spec: `operator==` of `Function` (`function.h` is
absent): two identities are equal iff same tag and same key. The ordering
used by `std::set<Function>` induces the same equivalence. -/
def Function.equals (a b : Function) : Bool :=
  decide (a.type = b.type) && decide (a.address = b.address)

/-- Modelled from the spec: `Function::IncreaseCalls()`. -/
def Function.IncreaseCalls (f : Function) : Function :=
  { f with num_calls := f.num_calls + 1 }

/-- Modelled from the spec: `Function::AdjustTime(total, child)` adds
`total` to the total time and `child` to the child time. -/
def Function.AdjustTime (total child : Nat) (f : Function) : Function :=
  { f with time := f.time + total, child_time := f.child_time + child }

/-! ## Statistics table (`std::set<Function> functions_`)

The set is a list of records with at most one record per identity as long as
it is only changed through `setInsert` and `setModify`. The iteration order
of the set is not modelled. -/

/-- The member `find` of the set: the record with the identity of `f`. -/
def setFind (f : Function) : List Function → Option Function
  | [] => none
  | r :: rs => if r.equals f then some r else setFind f rs

/-- The member `insert` of the set: no effect when a record with that
identity is present. -/
def setInsert (f : Function) (fs : List Function) : List Function :=
  match setFind f fs with
  | some _ => fs
  | none => fs ++ [f]

/-- Mutation of the record that `find` returned, through its iterator. -/
def setModify (f : Function) (g : Function → Function) : List Function → List Function
  | [] => []
  | r :: rs => if r.equals f then g r :: rs else r :: setModify f g rs

/-! ## Call stack -/

/-- Modelled from the spec: class `Timer` (`timer.h` is absent). The timer
of a frame starts when the frame is created; `total_time` is the interval it
reports when the frame is popped. -/
structure Timer where
  total_time : Nat
deriving DecidableEq, Repr

/-- Modelled from the spec: class `CallInfo` (`call_stack.h` is absent): the
function, the frame pointer recorded at call time and the running timer. -/
structure CallInfo where
  function : Function
  frame : Int
  timer : Timer
deriving DecidableEq, Repr

/-- Errors of the taxonomy of the engine. -/
inductive ProfilerError where
  | EmptyStackError
  | UnknownFunctionError
deriving DecidableEq, Repr

/-- Modelled from the spec: class `CallStack` (`call_stack.h` is absent), a
LIFO sequence of frames, top first. -/
abbrev CallStack := List CallInfo

/-- Modelled from the spec: `CallStack::IsEmpty`. -/
def CallStack.IsEmpty (s : CallStack) : Bool :=
  s.isEmpty

/-- Modelled from the spec: `CallStack::Push`. -/
def CallStack.Push (call : CallInfo) (s : CallStack) : CallStack :=
  call :: s

/-- Modelled from the spec: `CallStack::GetTop`, failing with
`EmptyStackError` on the empty stack. -/
def CallStack.GetTop : CallStack → Except ProfilerError CallInfo
  | [] => Except.error ProfilerError.EmptyStackError
  | c :: _ => Except.ok c

/-- Modelled from the spec: `CallStack::Pop` removes and returns the top
frame, failing with `EmptyStackError` on the empty stack. -/
def CallStack.Pop : CallStack → Except ProfilerError (CallInfo × CallStack)
  | [] => Except.error ProfilerError.EmptyStackError
  | c :: s => Except.ok (c, s)

/-! ## Profiler -/

/-- Symbolic information of a script, named by a number. -/
abbrev DebugInfo := Nat

/-- The members of `class Profiler` (the name tables of publics and natives,
used for printing only, are left out). -/
structure Profiler where
  active_ : Bool
  amx_ : Nat
  debug_ : Option DebugHook
  debug_info_ : Option DebugInfo
  call_stack_ : CallStack
  functions_ : List Function
deriving DecidableEq, Repr

/-- The source of `Profiler::EnterFunction`. -/
def Profiler.EnterFunction (call : CallInfo) (p : Profiler) : Profiler :=
  let p1 := { p with call_stack_ := CallStack.Push call p.call_stack_ }
  match setFind call.function p1.functions_ with
  | none =>
    let f := call.function.IncreaseCalls
    { p1 with functions_ := setInsert f p1.functions_ }
  | some _ =>
    { p1 with functions_ := setModify call.function Function.IncreaseCalls p1.functions_ }

/-- The statement of the loop body of `Profiler::LeaveFunction` that looks
up `function` in the table and, when a record is found, adjusts its time by
the interval of the timer of the popped frame (and by a child time of zero). -/
def accumulateTime (function : Function) (timer : Timer) (fs : List Function) :
    List Function :=
  match setFind function fs with
  | some _ => setModify function (Function.AdjustTime timer.total_time 0) fs
  | none => fs

/-- The loop of `Profiler::LeaveFunction` on the frames of the stack and the
statistics table: pop a frame, accumulate its time, stop when the popped
frame is the function to leave. -/
def leaveLoop (function : Function) :
    CallStack → List Function → Except ProfilerError (CallStack × List Function)
  | [], _ => Except.error ProfilerError.EmptyStackError
  | current :: rest, fs =>
    let fs1 := accumulateTime function current.timer fs
    if current.function.equals function then Except.ok (rest, fs1)
    else leaveLoop function rest fs1

/-- The source of `Profiler::LeaveFunction`. -/
def Profiler.LeaveFunction (function : Function) (p : Profiler) :
    Except ProfilerError Profiler :=
  match leaveLoop function p.call_stack_ p.functions_ with
  | Except.error e => Except.error e
  | Except.ok (s, fs) => Except.ok { p with call_stack_ := s, functions_ := fs }

/-- The source of `Profiler::ResetStats`. -/
def Profiler.ResetStats (p : Profiler) : Profiler :=
  { p with functions_ := [] }

/-- What a call of `Profiler::Debug` yields: the code it returns, the
profiler after it and the hooks it forwarded the signal to, in order. -/
structure DebugOutcome where
  result : Int
  profiler : Profiler
  forwarded : List DebugHook
deriving DecidableEq, Repr

/-- The reference frame of `Profiler::Debug`: `amx_->stp`, replaced by the
frame recorded in the top of the call stack when the stack is not empty. -/
def prevFrame (amx : AMX) : CallStack → Int
  | [] => amx.stp
  | top :: _ => top.frame

/-- The source of `Profiler::Debug`. `amx` is the AMX behind `amx_` at the
time of the signal, `timer` the timer started by the `CallInfo` that the
entry branch constructs and `hookResult` what a forwarded hook returns. -/
def Profiler.Debug (sdk : AmxSdk) (hookResult : DebugHook → AMX → Int) (amx : AMX)
    (timer : Timer) (p : Profiler) : Except ProfilerError DebugOutcome :=
  let prev := prevFrame amx p.call_stack_
  let step : Except ProfilerError Profiler :=
    if amx.frm < prev then
      let address := toCell sdk (amx.cip - 2 * (sdk.sizeof_cell : Int))
      if ReadAmxCode amx address = 46 then
        Except.ok (p.EnterFunction { function := Function.Normal address, frame := amx.frm, timer := timer })
      else Except.ok p
    else if amx.frm > prev then
      match CallStack.GetTop p.call_stack_ with
      | Except.error e => Except.error e
      | Except.ok top =>
        if top.function.type = FunctionType.PUBLIC then p.LeaveFunction top.function
        else Except.ok p
    else Except.ok p
  match step with
  | Except.error e => Except.error e
  | Except.ok p1 =>
    match p1.debug_ with
    | some hook => Except.ok { result := hookResult hook amx, profiler := p1, forwarded := [hook] }
    | none => Except.ok { result := sdk.AMX_ERR_NONE, profiler := p1, forwarded := [] }

/-- The source of `Profiler::Callback`. The host call `amx_Callback(amx_,
index, result, params)` is a parameter: it returns an error code and may
change the profiler, since the native can call back into the script. -/
def Profiler.Callback (amx : AMX) (amx_Callback : Profiler → Int × Profiler)
    (timer : Timer) (index : Int) (p : Profiler) : Except ProfilerError (Int × Profiler) :=
  let p1 := p.EnterFunction { function := Function.Native index, frame := amx.frm, timer := timer }
  let r := amx_Callback p1
  match r.2.LeaveFunction (Function.Native index) with
  | Except.error e => Except.error e
  | Except.ok p3 => Except.ok (r.1, p3)

/-- The source of `Profiler::Exec`. The host call `amx_Exec(amx_, retval,
index)` is a parameter, as in `Profiler.Callback`. The local `address` of
the source is computed and never used; it is left out. -/
def Profiler.Exec (sdk : AmxSdk) (amx : AMX) (amx_Exec : Profiler → Int × Profiler)
    (timer : Timer) (index : Int) (p : Profiler) : Except ProfilerError (Int × Profiler) :=
  if index ≥ 0 ∨ index = sdk.AMX_EXEC_MAIN then
    let p1 := p.EnterFunction
      { function := Function.Public index
        frame := toCell sdk (amx.stk - 3 * (sdk.sizeof_cell : Int))
        timer := timer }
    let r := amx_Exec p1
    match r.2.LeaveFunction (Function.Public index) with
    | Except.error e => Except.error e
    | Except.ok p3 => Except.ok (r.1, p3)
  else
    let r := amx_Exec p
    Except.ok (r.1, r.2)

/-- The source of `Profiler::IsScriptProfilable`, on the flags that
`amx_Flags` reports. -/
def IsScriptProfilable (sdk : AmxSdk) (amx : AMX) : Bool :=
  if amx.flags &&& sdk.AMX_FLAG_DEBUG ≠ 0 then true
  else if amx.flags &&& sdk.AMX_FLAG_NOCHECKS = 0 then true
  else false

/-! ## Registry of profilers and loading of a script -/

/-- The member `find` of a `std::map` keyed by AMX handle. -/
def mapFind {α : Type} (k : Nat) : List (Nat × α) → Option α
  | [] => none
  | e :: es => if e.1 = k then some e.2 else mapFind k es

/-- The assignment `m[k] = v` of a `std::map`. -/
def mapSet {α : Type} (k : Nat) (v : α) : List (Nat × α) → List (Nat × α)
  | [] => [(k, v)]
  | e :: es => if e.1 = k then (k, v) :: es else e :: mapSet k v es

/-- The process-wide state: the AMX instance behind every handle, the static
`Profiler::instances_` and the `debugInfos` of `plugin.cpp`. A profiler is
held by pointer in `instances_`, so a change made through the pointer is a
change of the entry. -/
structure World where
  amx : Nat → AMX
  instances_ : List (Nat × Profiler)
  debugInfos : List (Nat × DebugInfo)

/-- Writes the AMX behind a handle. -/
def World.setAmx (w : World) (h : Nat) (a : AMX) : World :=
  { w with amx := fun k => if k = h then a else w.amx k }

/-- The source of `Profiler::Get`; `none` is the null pointer. -/
def Profiler.Get (h : Nat) (w : World) : Option Profiler :=
  mapFind h w.instances_

/-- The source of the constructor `Profiler::Profiler(AMX *amx)`. -/
def Profiler.new (h : Nat) (w : World) : Profiler :=
  { active_ := false
    amx_ := h
    debug_ := (w.amx h).debug
    debug_info_ := none
    call_stack_ := []
    functions_ := [] }

/-- The source of `Profiler::Activate`, on the profiler registered for the
handle `h`. -/
def Profiler.Activate (h : Nat) (w : World) : World :=
  match Profiler.Get h w with
  | none => w
  | some p =>
    if !p.active_ then
      let w1 := { w with instances_ := mapSet h { p with active_ := true } w.instances_ }
      w1.setAmx p.amx_ (amx_SetDebugHook (w1.amx p.amx_) (some DebugHook.profilerDebug))
    else w

/-- The source of `Profiler::SetDebugInfo`, on the profiler registered for
the handle `h`. -/
def Profiler.SetDebugInfo (h : Nat) (info : DebugInfo) (w : World) : World :=
  match Profiler.Get h w with
  | none => w
  | some p => { w with instances_ := mapSet h { p with debug_info_ := some info } w.instances_ }

/-- The source of `Profiler::Attach(AMX *amx)`. -/
def Profiler.Attach (h : Nat) (w : World) : World :=
  let prof := Profiler.new h w
  let w1 := { w with instances_ := mapSet h prof w.instances_ }
  Profiler.Activate h w1

/-- The source of `Profiler::Attach(AMX *amx, const DebugInfo &debug_info)`. -/
def Profiler.AttachWithDebugInfo (h : Nat) (debug_info : DebugInfo) (w : World) : World :=
  Profiler.SetDebugInfo h debug_info (Profiler.Attach h w)

/-- The source of `AmxLoad` in `plugin.cpp`. What the function obtains from
the file system is a parameter: `filename` is the result of `GetAmxName`,
`wantsProfiler` that of `WantsProfiler`, `hasDebugInfo` that of
`DebugInfo::HasDebugInfo` and `loaded` the symbolic information that
`debugInfo.Load` produced, `none` when loading failed. Logging is left
out. -/
def AmxLoad (sdk : AmxSdk) (filename : String) (wantsProfiler hasDebugInfo : Bool)
    (loaded : Option DebugInfo) (h : Nat) (w : World) : Int × World :=
  if filename.isEmpty then (sdk.AMX_ERR_NONE, w)
  else if !IsScriptProfilable sdk (w.amx h) then (sdk.AMX_ERR_NONE, w)
  else if wantsProfiler then
    match hasDebugInfo, loaded with
    | true, some debugInfo =>
      let w1 := { w with debugInfos := mapSet h debugInfo w.debugInfos }
      (sdk.AMX_ERR_NONE, Profiler.AttachWithDebugInfo h debugInfo w1)
    | _, _ => (sdk.AMX_ERR_NONE, Profiler.Attach h w)
  else (sdk.AMX_ERR_NONE, w)

/-! ## Signal sequences -/

/-- An entry or exit signal. An entry carries the identity (tag and key),
the frame pointer and the timer of the frame to push; an exit carries the
identity to leave. -/
inductive Signal where
  | enter (type : FunctionType) (key : Int) (frame : Int) (timer : Timer)
  | leave (type : FunctionType) (key : Int)
deriving DecidableEq, Repr

/-- Delivers one signal to the profiler. -/
def Signal.deliver : Signal → Profiler → Except ProfilerError Profiler
  | Signal.enter t k frame timer, p =>
    Except.ok (p.EnterFunction { function := Function.create t k, frame := frame, timer := timer })
  | Signal.leave t k, p => p.LeaveFunction (Function.create t k)

/-- Delivers a sequence of signals, first to last, stopping at the first
error. -/
def runSignals : List Signal → Profiler → Except ProfilerError Profiler
  | [], p => Except.ok p
  | s :: ss, p =>
    match s.deliver p with
    | Except.error e => Except.error e
    | Except.ok p1 => runSignals ss p1

/-- A sequence is balanced from the list `pending` of entered and not yet
left identities (most recent first) when every exit names the most recent
pending entry and nothing is pending at the end. -/
def balancedFrom : List (FunctionType × Int) → List Signal → Bool
  | pending, [] => pending.isEmpty
  | pending, Signal.enter t k _ _ :: ss => balancedFrom ((t, k) :: pending) ss
  | [], Signal.leave _ _ :: _ => false
  | top :: pending, Signal.leave t k :: ss => decide (top = (t, k)) && balancedFrom pending ss

/-- A balanced sequence of entry and exit signals. -/
def balanced (ss : List Signal) : Bool :=
  balancedFrom [] ss

/-- The number of entry signals of a sequence for the identity `(t, k)`. -/
def entriesOf (t : FunctionType) (k : Int) : List Signal → Nat
  | [] => 0
  | Signal.enter t1 k1 _ _ :: ss => (if t1 = t ∧ k1 = k then 1 else 0) + entriesOf t k ss
  | Signal.leave _ _ :: ss => entriesOf t k ss

/-- The call count recorded for an identity, zero when the table has no
record for it. -/
def callCount (f : Function) (fs : List Function) : Nat :=
  match setFind f fs with
  | some r => r.num_calls
  | none => 0

/-- The total time recorded for an identity, zero when the table has no
record for it. -/
def totalTime (f : Function) (fs : List Function) : Nat :=
  match setFind f fs with
  | some r => r.time
  | none => 0

/-- The frames that an exit for `function` pops: the frames above the
topmost frame with that identity, and that frame. -/
def poppedFrames (function : Function) : CallStack → List CallInfo
  | [] => []
  | c :: s => if c.function.equals function then [c] else c :: poppedFrames function s

/-- The sum of the intervals reported by the timers of a list of frames. -/
def elapsedSum (frames : List CallInfo) : Nat :=
  (frames.map fun c => c.timer.total_time).sum

/-! ## Runs of the engine -/

/-- Modelled from the spec: the self time of a record, total time minus
child time (`function.h` is absent). -/
def Function.self_time (f : Function) : Nat :=
  f.time - f.child_time

/-- The part of `Profiler::Debug` before the forwarding of the signal: the
comparison of the frame pointers with the entry and the exit branch. -/
def debugStep (sdk : AmxSdk) (amx : AMX) (timer : Timer) (p : Profiler) :
    Except ProfilerError Profiler :=
  if amx.frm < prevFrame amx p.call_stack_ then
    if ReadAmxCode amx (toCell sdk (amx.cip - 2 * (sdk.sizeof_cell : Int))) = 46 then
      Except.ok (p.EnterFunction
        { function := Function.Normal (toCell sdk (amx.cip - 2 * (sdk.sizeof_cell : Int)))
          frame := amx.frm
          timer := timer })
    else Except.ok p
  else if amx.frm > prevFrame amx p.call_stack_ then
    match CallStack.GetTop p.call_stack_ with
    | Except.error e => Except.error e
    | Except.ok top =>
      if top.function.type = FunctionType.PUBLIC then p.LeaveFunction top.function
      else Except.ok p
  else Except.ok p

/-- The end of `Profiler::Debug`: the signal is forwarded to the hook saved
in `debug_`, whose result is returned; without a saved hook the result is
`AMX_ERR_NONE`. -/
def forwardToSavedHook (sdk : AmxSdk) (hookResult : DebugHook → AMX → Int) (amx : AMX)
    (p : Profiler) : DebugOutcome :=
  match p.debug_ with
  | some hook => { result := hookResult hook amx, profiler := p, forwarded := [hook] }
  | none => { result := sdk.AMX_ERR_NONE, profiler := p, forwarded := [] }

/-- A signal that the engine receives: an explicit entry or exit, which is
what `Exec` and `Callback` deliver before and after the host call, or a step
signal of the host, which runs `Debug`. -/
inductive EngineEvent where
  | explicit (s : Signal)
  | step (amx : AMX) (timer : Timer)

/-- Delivers one event to the profiler. -/
def EngineEvent.deliver (sdk : AmxSdk) (hookResult : DebugHook → AMX → Int) :
    EngineEvent → Profiler → Except ProfilerError Profiler
  | EngineEvent.explicit s, p => s.deliver p
  | EngineEvent.step amx timer, p =>
    match Profiler.Debug sdk hookResult amx timer p with
    | Except.error e => Except.error e
    | Except.ok out => Except.ok out.profiler

/-- Delivers a sequence of events, first to last, stopping at the first
error. -/
def runEvents (sdk : AmxSdk) (hookResult : DebugHook → AMX → Int) :
    List EngineEvent → Profiler → Except ProfilerError Profiler
  | [], p => Except.ok p
  | e :: es, p =>
    match e.deliver sdk hookResult p with
    | Except.error err => Except.error err
    | Except.ok p1 => runEvents sdk hookResult es p1

/-- A signal of the host as the engine meets it: a step signal (`Debug`), or
one half of an explicit call signal. `execBegin` is `Exec` up to the host
call and `execEnd` is `Exec` after it; `callbackBegin` and `callbackEnd` are
the two halves of `Callback`. -/
inductive HostSignal where
  | step (amx : AMX) (timer : Timer)
  | execBegin (amx : AMX) (timer : Timer) (index : Int)
  | execEnd (index : Int)
  | callbackBegin (amx : AMX) (timer : Timer) (index : Int)
  | callbackEnd (index : Int)

/-- The events that a signal of the host delivers to the engine: `Exec`
enters and leaves `Public(index)`, recording `stk - 3*sizeof(cell)`, when
the index is not negative or is the main sentinel, and does nothing to the
engine otherwise; `Callback` enters and leaves `Native(index)`, recording
`frm`. -/
def HostSignal.toEvents (sdk : AmxSdk) : HostSignal → List EngineEvent
  | HostSignal.step amx timer => [EngineEvent.step amx timer]
  | HostSignal.execBegin amx timer index =>
    if index ≥ 0 ∨ index = sdk.AMX_EXEC_MAIN then
      [EngineEvent.explicit (Signal.enter FunctionType.PUBLIC index
        (toCell sdk (amx.stk - 3 * (sdk.sizeof_cell : Int))) timer)]
    else []
  | HostSignal.execEnd index =>
    if index ≥ 0 ∨ index = sdk.AMX_EXEC_MAIN then
      [EngineEvent.explicit (Signal.leave FunctionType.PUBLIC index)]
    else []
  | HostSignal.callbackBegin amx timer index =>
    [EngineEvent.explicit (Signal.enter FunctionType.NATIVE index amx.frm timer)]
  | HostSignal.callbackEnd index =>
    [EngineEvent.explicit (Signal.leave FunctionType.NATIVE index)]

/-- The events of a sequence of signals of the host, in order. -/
def hostEvents (sdk : AmxSdk) : List HostSignal → List EngineEvent
  | [] => []
  | h :: hs => h.toEvents sdk ++ hostEvents sdk hs

/-- Delivers a sequence of signals of the host to the engine. -/
def runHost (sdk : AmxSdk) (hookResult : DebugHook → AMX → Int) (signals : List HostSignal)
    (p : Profiler) : Except ProfilerError Profiler :=
  runEvents sdk hookResult (hostEvents sdk signals) p

/-- Every frame of a normal function on the stack records a frame pointer
strictly less than the one recorded in the frame directly below it. -/
def normalFramesBelow (s : CallStack) : Prop :=
  List.Chain' (fun upper lower : CallInfo =>
    upper.function.type = FunctionType.NORMAL → upper.frame < lower.frame) s

/-- The event is not an explicit entry of a normal function: explicit call
signals enter publics and natives only. -/
def notExplicitNormalEntry : EngineEvent → Bool
  | EngineEvent.explicit (Signal.enter FunctionType.NORMAL _ _ _) => false
  | _ => true

/-! ## Concrete inputs -/

/-- A profiler as the constructor leaves it for the handle `1`, with no hook
registered before it. -/
def freshProfiler : Profiler :=
  { active_ := false
    amx_ := 1
    debug_ := none
    debug_info_ := none
    call_stack_ := []
    functions_ := [] }

/-- A recursive call: `Normal(8)` entered twice, then left twice. -/
def recursionSignals : List Signal :=
  [ Signal.enter FunctionType.NORMAL 8 100 { total_time := 5 },
    Signal.enter FunctionType.NORMAL 8 90 { total_time := 2 },
    Signal.leave FunctionType.NORMAL 8,
    Signal.leave FunctionType.NORMAL 8 ]

/-- The defensive unwind: `Public(0)` entered, then `Normal(8)`, then
`Normal(16)`, with timers that report 10, 5 and 2, and then a single exit
for `Public(0)`. -/
def unwindSignals : List Signal :=
  [ Signal.enter FunctionType.PUBLIC 0 1000 { total_time := 10 },
    Signal.enter FunctionType.NORMAL 8 900 { total_time := 5 },
    Signal.enter FunctionType.NORMAL 16 800 { total_time := 2 },
    Signal.leave FunctionType.PUBLIC 0 ]

/-- An AMX with the given frame pointer and instruction pointer, a stack top
of 1000, no hook registered, and a code section that holds the opcode 46 at
the offset 40 and zero everywhere else. -/
def sampleAmx (frm cip : Int) : AMX :=
  { frm := frm
    stp := 1000
    stk := 1000
    cip := cip
    flags := 0
    debug := none
    code := fun location => if location = 40 then 46 else 0 }

/-- A forwarded hook that returns 7 whatever it is called with. -/
def sampleHookResult : DebugHook → AMX → Int :=
  fun _ _ => 7

/-- The fresh profiler after one entry of `Normal(8)` with the frame
pointer 100. -/
def normalOnTop : Profiler :=
  freshProfiler.EnterFunction
    { function := Function.Normal 8, frame := 100, timer := { total_time := 3 } }

/-- The fresh profiler after one entry of `Public(0)` with the frame
pointer 100. -/
def publicOnTop : Profiler :=
  freshProfiler.EnterFunction
    { function := Function.Public 0, frame := 100, timer := { total_time := 3 } }

/-- A process with no profiler attached, in which every handle stands for an
AMX whose debug hook is the foreign hook 5 and whose flags are `flags`. -/
def sampleWorld (flags : Nat) : World :=
  { amx := fun _ => { sampleAmx 0 0 with debug := some (DebugHook.other 5), flags := flags }
    instances_ := []
    debugInfos := [] }

/-- Two step signals that enter nested normal functions: at frame pointer 50
and then at frame pointer 30, each time two cells after the opcode 46. -/
def nestedSteps : List EngineEvent :=
  [ EngineEvent.step (sampleAmx 50 48) { total_time := 4 },
    EngineEvent.step (sampleAmx 30 48) { total_time := 1 } ]

/-- A public function entered by an explicit signal at frame pointer 988, a
normal function entered by a step signal at frame pointer 50, a native
called from it (frame pointer 50), the exit of the native and the exit of
the public function. -/
def mixedRun : List EngineEvent :=
  [ EngineEvent.explicit (Signal.enter FunctionType.PUBLIC 0 988 { total_time := 10 }),
    EngineEvent.step (sampleAmx 50 48) { total_time := 4 },
    EngineEvent.explicit (Signal.enter FunctionType.NATIVE 3 50 { total_time := 1 }),
    EngineEvent.explicit (Signal.leave FunctionType.NATIVE 3),
    EngineEvent.explicit (Signal.leave FunctionType.PUBLIC 0) ]

/-- The fresh profiler after the three entries of `unwindSignals`: the frames
of `Normal(16)`, `Normal(8)` and `Public(0)`, top first. -/
def beforeUnwind : Profiler :=
  ((freshProfiler.EnterFunction
      { function := Function.Public 0, frame := 1000, timer := { total_time := 10 } }).EnterFunction
      { function := Function.Normal 8, frame := 900, timer := { total_time := 5 } }).EnterFunction
      { function := Function.Normal 16, frame := 800, timer := { total_time := 2 } }

/-- The fresh profiler after the first three events of `mixedRun`: the frames
of `Native(3)` (frame pointer 50), `Normal(40)` (50) and `Public(0)` (988),
top first. -/
def insideNative : Profiler :=
  ((freshProfiler.EnterFunction
      { function := Function.Public 0, frame := 988, timer := { total_time := 10 } }).EnterFunction
      { function := Function.Normal 40, frame := 50, timer := { total_time := 4 } }).EnterFunction
      { function := Function.Native 3, frame := 50, timer := { total_time := 1 } }

/-- The fresh profiler of an AMX on which the foreign hook 5 was registered
before the profiler was constructed. -/
def hookedProfiler : Profiler :=
  { freshProfiler with debug_ := some (DebugHook.other 5) }

/-- The profiler `hookedProfiler` after one entry of `Normal(8)` with the
frame pointer 100. -/
def hookedNormalOnTop : Profiler :=
  hookedProfiler.EnterFunction
    { function := Function.Normal 8, frame := 100, timer := { total_time := 3 } }

/-- A public function executed from the host (`stk` is 1000, so the frame
records 988), a normal function entered at frame pointer 50 and a native
called from it: the signals that lead from the fresh profiler to
`insideNative`. -/
def nativeCallRun : List HostSignal :=
  [ HostSignal.execBegin (sampleAmx 0 0) { total_time := 10 } 0,
    HostSignal.step (sampleAmx 50 48) { total_time := 4 },
    HostSignal.callbackBegin (sampleAmx 50 0) { total_time := 1 } 3 ]

/-- A public function executed from the host (frame 988), a normal function
entered at frame pointer 900, a step signal back at frame pointer 988 after
the normal function returned, and a native called then, with the frame
pointer 988. -/
def returnThenNativeRun : List HostSignal :=
  [ HostSignal.execBegin (sampleAmx 0 0) { total_time := 10 } 0,
    HostSignal.step (sampleAmx 900 48) { total_time := 4 },
    HostSignal.step (sampleAmx 988 0) { total_time := 0 },
    HostSignal.callbackBegin (sampleAmx 988 0) { total_time := 1 } 3 ]

/-! ## Lemmas on the statistics table -/

theorem equals_iff (a b : Function) :
    a.equals b = true ↔ a.type = b.type ∧ a.address = b.address := by
  simp [Function.equals]

theorem equals_create (r : Function) (t : FunctionType) (k : Int) :
    r.equals (Function.create t k) = true ↔ r.type = t ∧ r.address = k := by
  simp [Function.equals, Function.create]

theorem equals_trans_left {r f g : Function} (hfg : f.equals g = true) :
    r.equals f = r.equals g := by
  have h := (equals_iff f g).1 hfg
  simp [Function.equals, h.1, h.2]

theorem setFind_congr {f g : Function} (hfg : f.equals g = true) (fs : List Function) :
    setFind f fs = setFind g fs := by
  induction fs with
  | nil => rfl
  | cons r rs ih => simp [setFind, equals_trans_left hfg, ih]

theorem setFind_some_equals {f r : Function} {fs : List Function}
    (h : setFind f fs = some r) : r.equals f = true := by
  induction fs with
  | nil => simp [setFind] at h
  | cons x xs ih =>
    by_cases hx : x.equals f = true
    · simp [setFind, hx] at h
      subst h
      exact hx
    · simp [setFind, hx] at h
      exact ih h

theorem setFind_setModify (f g : Function) (m : Function → Function)
    (hm : ∀ r x, (m r).equals x = r.equals x) (fs : List Function) :
    setFind g (setModify f m fs) =
      if f.equals g = true then (setFind g fs).map m else setFind g fs := by
  induction fs with
  | nil => simp [setFind, setModify]
  | cons r rs ih =>
    by_cases hrf : r.equals f = true
    · by_cases hfg : f.equals g = true
      · have hrg : r.equals g = true := by rw [← equals_trans_left hfg]; exact hrf
        simp [setFind, setModify, hrf, hfg, hm, hrg]
      · have hrg : ¬ r.equals g = true := by
          intro h
          apply hfg
          have h1 := (equals_iff r f).1 hrf
          have h2 := (equals_iff r g).1 h
          exact (equals_iff f g).2 ⟨h1.1 ▸ h2.1, h1.2 ▸ h2.2⟩
        simp [setFind, setModify, hrf, hfg, hm, hrg]
    · by_cases hrg : r.equals g = true
      · have hfg : ¬ f.equals g = true := by
          intro hfg
          apply hrf
          have h1 := (equals_iff f g).1 hfg
          have h2 := (equals_iff r g).1 hrg
          exact (equals_iff r f).2 ⟨h2.1.trans h1.1.symm, h2.2.trans h1.2.symm⟩
        simp [setFind, setModify, hrf, hrg, hfg]
      · simp [setFind, setModify, hrf, hrg, ih]

theorem setFind_append_single (g x : Function) (fs : List Function) :
    setFind g (fs ++ [x]) =
      match setFind g fs with
      | some r => some r
      | none => if x.equals g = true then some x else none := by
  induction fs with
  | nil => simp [setFind]
  | cons r rs ih =>
    by_cases hrg : r.equals g = true
    · simp [setFind, hrg]
    · simp [setFind, hrg, ih]

theorem IncreaseCalls_equals (r x : Function) :
    (Function.IncreaseCalls r).equals x = r.equals x := by
  simp [Function.IncreaseCalls, Function.equals]

theorem AdjustTime_equals (a b : Nat) (r x : Function) :
    (Function.AdjustTime a b r).equals x = r.equals x := by
  simp [Function.AdjustTime, Function.equals]

/-- The statistics table after `EnterFunction`, as seen through `find`. -/
theorem setFind_EnterFunction (call : CallInfo) (p : Profiler) (g : Function) :
    setFind g (p.EnterFunction call).functions_ =
      if call.function.equals g = true then
        match setFind g p.functions_ with
        | some r => some r.IncreaseCalls
        | none => some call.function.IncreaseCalls
      else setFind g p.functions_ := by
  unfold Profiler.EnterFunction
  cases hfind : setFind call.function p.functions_ with
  | none =>
    have hins : setFind call.function.IncreaseCalls p.functions_ = none := by
      rw [← hfind]
      apply setFind_congr
      rw [IncreaseCalls_equals]
      simp [Function.equals]
    by_cases hcg : call.function.equals g = true
    · have hg : setFind g p.functions_ = none := by
        rw [← setFind_congr hcg]; exact hfind
      simp [hfind, setInsert, hins, setFind_append_single, hg, hcg, IncreaseCalls_equals]
    · simp [hfind, setInsert, hins, setFind_append_single, hcg, IncreaseCalls_equals]
      cases setFind g p.functions_ <;> simp
  | some r0 =>
    simp only [hfind]
    rw [setFind_setModify _ _ _ IncreaseCalls_equals]
    by_cases hcg : call.function.equals g = true
    · have hg : setFind g p.functions_ = some r0 := by
        rw [← setFind_congr hcg]; exact hfind
      simp [hcg, hg]
    · simp [hcg]

theorem call_stack_EnterFunction (call : CallInfo) (p : Profiler) :
    (p.EnterFunction call).call_stack_ = call :: p.call_stack_ := by
  unfold Profiler.EnterFunction
  cases h : setFind call.function p.functions_ <;> simp [h, CallStack.Push]

/-! ## Lemmas on `LeaveFunction` -/

theorem AdjustTime_AdjustTime (a b : Nat) (r : Function) :
    Function.AdjustTime b 0 (Function.AdjustTime a 0 r) = Function.AdjustTime (a + b) 0 r := by
  simp [Function.AdjustTime, Nat.add_assoc]

theorem setFind_accumulateTime (f g : Function) (timer : Timer) (fs : List Function) :
    setFind g (accumulateTime f timer fs) =
      if f.equals g = true then (setFind g fs).map (Function.AdjustTime timer.total_time 0)
      else setFind g fs := by
  unfold accumulateTime
  cases hfind : setFind f fs with
  | none =>
    by_cases hfg : f.equals g = true
    · have hg : setFind g fs = none := by rw [← setFind_congr hfg]; exact hfind
      simp [hfg, hg]
    · simp [hfg]
  | some r0 =>
    simp only []
    rw [setFind_setModify _ _ _ (AdjustTime_equals _ _)]

theorem accumulateTime_of_none (f : Function) (timer : Timer) (fs : List Function)
    (h : setFind f fs = none) : accumulateTime f timer fs = fs := by
  simp [accumulateTime, h]

theorem callCount_accumulateTime (f g : Function) (timer : Timer) (fs : List Function) :
    callCount g (accumulateTime f timer fs) = callCount g fs := by
  unfold callCount
  rw [setFind_accumulateTime]
  by_cases hfg : f.equals g = true
  · cases setFind g fs <;> simp [hfg, Function.AdjustTime]
  · simp [hfg]

theorem leaveLoop_top (f : Function) (c : CallInfo) (st : CallStack) (fs : List Function)
    (hc : c.function.equals f = true) :
    leaveLoop f (c :: st) fs = Except.ok (st, accumulateTime f c.timer fs) := by
  simp [leaveLoop, hc]

theorem LeaveFunction_top (f : Function) (p : Profiler) (c : CallInfo) (st : CallStack)
    (hcs : p.call_stack_ = c :: st) (hc : c.function.equals f = true) :
    p.LeaveFunction f =
      Except.ok { p with call_stack_ := st, functions_ := accumulateTime f c.timer p.functions_ } := by
  simp [Profiler.LeaveFunction, hcs, leaveLoop_top f c st p.functions_ hc]

theorem LeaveFunction_top_spec (f : Function) (p : Profiler) (c : CallInfo) (st : CallStack)
    (hcs : p.call_stack_ = c :: st) (hc : c.function.equals f = true) :
    ∃ p1, p.LeaveFunction f = Except.ok p1 ∧ p1.call_stack_ = st ∧
      ∀ g, setFind g p1.functions_ =
        if f.equals g = true then
          (setFind g p.functions_).map (Function.AdjustTime c.timer.total_time 0)
        else setFind g p.functions_ :=
  ⟨_, LeaveFunction_top f p c st hcs hc, rfl, fun g => setFind_accumulateTime f g c.timer _⟩

/-- An exit for a function that is on the stack succeeds: it removes the
popped frames and credits the sum of their intervals to the record of the
function to leave, when there is one; nothing else changes in the table. -/
theorem leaveLoop_ok (f : Function) :
    ∀ (st : CallStack) (fs : List Function),
      (∃ c, c ∈ st ∧ c.function.equals f = true) →
      ∃ fs1, leaveLoop f st fs = Except.ok (st.drop (poppedFrames f st).length, fs1) ∧
        (∀ g, setFind g fs1 =
          if f.equals g = true then
            (setFind g fs).map (Function.AdjustTime (elapsedSum (poppedFrames f st)) 0)
          else setFind g fs) ∧
        (setFind f fs = none → fs1 = fs) := by
  intro st
  induction st with
  | nil => intro fs h; obtain ⟨c, hc, _⟩ := h; simp at hc
  | cons c rest ih =>
    intro fs h
    by_cases hc : c.function.equals f = true
    · refine ⟨accumulateTime f c.timer fs, ?_, ?_, ?_⟩
      · simp [leaveLoop, hc, poppedFrames]
      · intro g
        simp [poppedFrames, hc, elapsedSum, setFind_accumulateTime]
      · exact accumulateTime_of_none f c.timer fs
    · have hrest : ∃ c1, c1 ∈ rest ∧ c1.function.equals f = true := by
        obtain ⟨c1, hmem, heq⟩ := h
        rcases List.mem_cons.1 hmem with h1 | h1
        · subst h1; exact absurd heq hc
        · exact ⟨c1, h1, heq⟩
      obtain ⟨fs1, hrun, hfind, hnone⟩ := ih (accumulateTime f c.timer fs) hrest
      refine ⟨fs1, ?_, ?_, ?_⟩
      · simp [leaveLoop, hc, poppedFrames, hrun]
      · intro g
        rw [hfind g, setFind_accumulateTime]
        by_cases hfg : f.equals g = true
        · cases hg : setFind g fs with
          | none => simp [hfg]
          | some r =>
            simp [hfg, poppedFrames, hc, elapsedSum, AdjustTime_AdjustTime]
        · simp [hfg]
      · intro hn
        rw [hnone (by rw [accumulateTime_of_none f c.timer fs hn]; exact hn)]
        exact accumulateTime_of_none f c.timer fs hn

/-! ## Lemmas on sequences of signals -/

theorem callCount_EnterFunction_create (t : FunctionType) (k : Int) (frame : Int)
    (timer : Timer) (p : Profiler) (t1 : FunctionType) (k1 : Int) :
    callCount (Function.create t1 k1)
        (p.EnterFunction { function := Function.create t k, frame := frame, timer := timer }).functions_ =
      callCount (Function.create t1 k1) p.functions_ + (if t = t1 ∧ k = k1 then 1 else 0) := by
  unfold callCount
  rw [setFind_EnterFunction]
  by_cases h : t = t1 ∧ k = k1
  · have he : (Function.create t k).equals (Function.create t1 k1) = true := by
      simp [Function.equals, Function.create, h.1, h.2]
    rw [if_pos he, if_pos h]
    cases setFind (Function.create t1 k1) p.functions_ <;>
      simp [Function.IncreaseCalls, Function.create]
  · have he : ¬ (Function.create t k).equals (Function.create t1 k1) = true := by
      simpa [Function.equals, Function.create] using h
    simp [he, h]

/-- A sequence that is balanced from the identities of the frames on the
call stack runs without error, empties the stack and raises every call count
by the number of entries of the identity. -/
theorem run_balancedFrom :
    ∀ (ss : List Signal) (pending : List (FunctionType × Int)) (p : Profiler),
      balancedFrom pending ss = true →
      p.call_stack_.map (fun c => (c.function.type, c.function.address)) = pending →
      ∃ p1, runSignals ss p = Except.ok p1 ∧ p1.call_stack_ = [] ∧
        ∀ t k, callCount (Function.create t k) p1.functions_ =
          callCount (Function.create t k) p.functions_ + entriesOf t k ss := by
  intro ss
  induction ss with
  | nil =>
    intro pending p hb hst
    refine ⟨p, rfl, ?_, ?_⟩
    · have : pending = [] := by simpa [balancedFrom] using hb
      rw [this] at hst
      simpa using hst
    · intro t k; simp [entriesOf]
  | cons s ss ih =>
    intro pending p hb hst
    cases s with
    | enter t k frame timer =>
      have hb1 : balancedFrom ((t, k) :: pending) ss = true := by
        simpa [balancedFrom] using hb
      have hst1 : (p.EnterFunction ⟨Function.create t k, frame, timer⟩).call_stack_.map
          (fun c => (c.function.type, c.function.address)) = (t, k) :: pending := by
        rw [call_stack_EnterFunction]
        simp [hst, Function.create]
      obtain ⟨p1, hrun, hempty, hcount⟩ := ih _ _ hb1 hst1
      refine ⟨p1, ?_, hempty, ?_⟩
      · simp [runSignals, Signal.deliver, hrun]
      · intro t1 k1
        rw [hcount t1 k1, callCount_EnterFunction_create]
        simp [entriesOf, Nat.add_assoc]
    | leave t k =>
      cases pending with
      | nil => simp [balancedFrom] at hb
      | cons top pending =>
        have hb1 : top = (t, k) ∧ balancedFrom pending ss = true := by
          simpa [balancedFrom] using hb
        cases hcs : p.call_stack_ with
        | nil => rw [hcs] at hst; simp at hst
        | cons c st =>
          rw [hcs] at hst
          have hst2 : (c.function.type, c.function.address) = top ∧
              st.map (fun c => (c.function.type, c.function.address)) = pending := by
            simpa using hst
          have hc : c.function.equals (Function.create t k) = true := by
            rw [equals_create]
            have := hst2.1.trans hb1.1
            simpa using this
          have hleave : p.LeaveFunction (Function.create t k) =
              Except.ok { p with call_stack_ := st,
                                 functions_ := accumulateTime (Function.create t k) c.timer p.functions_ } := by
            simp [Profiler.LeaveFunction, hcs, leaveLoop_top _ _ _ _ hc]
          obtain ⟨p1, hrun, hempty, hcount⟩ := ih pending
            { p with call_stack_ := st,
                     functions_ := accumulateTime (Function.create t k) c.timer p.functions_ }
            hb1.2 hst2.2
          refine ⟨p1, ?_, hempty, ?_⟩
          · simp [runSignals, Signal.deliver, hleave, hrun]
          · intro t1 k1
            rw [hcount t1 k1]
            simp [callCount_accumulateTime, entriesOf]

/-! ## Balanced sequences, entries and recursion -/

/-- C1: a balanced sequence of entry and exit signals, delivered to a
profiler with an empty call stack and an empty statistics table, runs
without error and leaves the call stack empty; the record of every identity
then has a call count equal to the number of entry signals of that identity,
and an identity without a record has no entry signal. -/
theorem balanced_run_empties_stack_and_counts_entries (ss : List Signal) (p : Profiler)
    (hstack : p.call_stack_ = []) (htable : p.functions_ = [])
    (hb : balanced ss = true) :
    ∃ p1, runSignals ss p = Except.ok p1 ∧ p1.call_stack_ = [] ∧
      (∀ t k r, setFind (Function.create t k) p1.functions_ = some r →
        r.num_calls = entriesOf t k ss) ∧
      (∀ t k, setFind (Function.create t k) p1.functions_ = none → entriesOf t k ss = 0) := by
  obtain ⟨p1, hrun, hempty, hcount⟩ := run_balancedFrom ss [] p hb (by simp [hstack])
  refine ⟨p1, hrun, hempty, ?_, ?_⟩
  · intro t k r hr
    have h := hcount t k
    simp [callCount, hr, htable, setFind] at h
    exact h
  · intro t k hr
    have h := hcount t k
    simp [callCount, hr, htable, setFind] at h
    exact h.symm

/-- C1 at a concrete input: the recursive sequence `recursionSignals` on the
fresh profiler. -/
theorem balanced_run_witness :
    balanced recursionSignals = true ∧
    ∃ p1, runSignals recursionSignals freshProfiler = Except.ok p1 ∧ p1.call_stack_ = [] ∧
      (∀ t k r, setFind (Function.create t k) p1.functions_ = some r →
        r.num_calls = entriesOf t k recursionSignals) ∧
      (∀ t k, setFind (Function.create t k) p1.functions_ = none →
        entriesOf t k recursionSignals = 0) :=
  ⟨by decide,
   balanced_run_empties_stack_and_counts_entries recursionSignals freshProfiler rfl rfl
     (by decide)⟩

/-- C5: `EnterFunction` for the identity `(t, k)` pushes exactly one frame,
that of the call, on the call stack; when the table has no record for the
identity it gets one with call count 1 and no time, otherwise the call count
of the record goes from `n` to `n + 1` and nothing else in it changes; the
record of every other identity is unchanged. -/
theorem EnterFunction_pushes_frame_and_counts_call (p : Profiler) (t : FunctionType)
    (k frame : Int) (timer : Timer) :
    (p.EnterFunction ⟨Function.create t k, frame, timer⟩).call_stack_ =
        ⟨Function.create t k, frame, timer⟩ :: p.call_stack_ ∧
    (setFind (Function.create t k) p.functions_ = none →
      setFind (Function.create t k)
          (p.EnterFunction ⟨Function.create t k, frame, timer⟩).functions_ =
        some { type := t, address := k, num_calls := 1, time := 0, child_time := 0 }) ∧
    (∀ r, setFind (Function.create t k) p.functions_ = some r →
      setFind (Function.create t k)
          (p.EnterFunction ⟨Function.create t k, frame, timer⟩).functions_ =
        some { r with num_calls := r.num_calls + 1 }) ∧
    (∀ g : Function, g.equals (Function.create t k) = false →
      setFind g (p.EnterFunction ⟨Function.create t k, frame, timer⟩).functions_ =
        setFind g p.functions_) := by
  have hself : (Function.create t k).equals (Function.create t k) = true := by
    simp [Function.equals]
  refine ⟨call_stack_EnterFunction _ _, ?_, ?_, ?_⟩
  · intro hnone
    rw [setFind_EnterFunction, if_pos hself, hnone]
    simp [Function.IncreaseCalls, Function.create]
  · intro r hr
    rw [setFind_EnterFunction, if_pos hself, hr]
    simp [Function.IncreaseCalls]
  · intro g hg
    rw [setFind_EnterFunction]
    have hne : ¬ (Function.create t k).equals g = true := by
      intro h
      have h1 := (equals_iff _ _).1 h
      have h2 : g.equals (Function.create t k) = true :=
        (equals_iff _ _).2 ⟨h1.1.symm, h1.2.symm⟩
      rw [hg] at h2
      exact absurd h2 (by simp)
    simp [hne]

/-- C6: from any state, entering `Normal(a)` twice and then leaving it twice
runs without error, restores the call stack, and leaves a record of
`Normal(a)` whose call count is the former count plus 2 and whose total time
is the former total time plus the intervals of the two popped frames (a
missing record counts as zero calls and zero time). -/
theorem recursion_counts_two_calls_and_two_intervals (p : Profiler) (a frame1 frame2 : Int)
    (timer1 timer2 : Timer) :
    ∃ p4, runSignals
        [ Signal.enter FunctionType.NORMAL a frame1 timer1,
          Signal.enter FunctionType.NORMAL a frame2 timer2,
          Signal.leave FunctionType.NORMAL a,
          Signal.leave FunctionType.NORMAL a ] p = Except.ok p4 ∧
      p4.call_stack_ = p.call_stack_ ∧
      ∃ r, setFind (Function.Normal a) p4.functions_ = some r ∧
        r.num_calls = callCount (Function.Normal a) p.functions_ + 2 ∧
        r.time = totalTime (Function.Normal a) p.functions_
          + (timer1.total_time + timer2.total_time) := by
  have hself : (Function.create FunctionType.NORMAL a).equals
      (Function.create FunctionType.NORMAL a) = true := by
    simp [Function.equals]
  obtain ⟨p3, h3, hs3, hf3⟩ := LeaveFunction_top_spec (Function.create FunctionType.NORMAL a)
    ((p.EnterFunction ⟨Function.create FunctionType.NORMAL a, frame1, timer1⟩).EnterFunction
      ⟨Function.create FunctionType.NORMAL a, frame2, timer2⟩)
    ⟨Function.create FunctionType.NORMAL a, frame2, timer2⟩
    (⟨Function.create FunctionType.NORMAL a, frame1, timer1⟩ :: p.call_stack_)
    (by rw [call_stack_EnterFunction, call_stack_EnterFunction]) hself
  obtain ⟨p4, h4, hs4, hf4⟩ := LeaveFunction_top_spec (Function.create FunctionType.NORMAL a)
    p3 ⟨Function.create FunctionType.NORMAL a, frame1, timer1⟩ p.call_stack_ hs3 hself
  refine ⟨p4, ?_, hs4, ?_⟩
  · simp only [runSignals, Signal.deliver, h3, h4]
  · simp only [Function.Normal, hf4, hf3, setFind_EnterFunction, if_pos hself, callCount,
      totalTime]
    cases setFind (Function.create FunctionType.NORMAL a) p.functions_ with
    | none =>
      simp [Function.IncreaseCalls, Function.AdjustTime, Function.create]
      omega
    | some r =>
      simp [Function.IncreaseCalls, Function.AdjustTime]
      omega

/-! ## Defensive unwind -/

/-- C2: on the defensive unwind `unwindSignals` the code raises no error and
empties the stack, but it credits the intervals of all three popped frames
(2 + 5 + 10) to the record of `Public(0)`, the function to leave; the
records of `Normal(8)` and `Normal(16)` keep a total time of zero, where
crediting every popped frame to its own identity gives 10, 5 and 2. -/
theorem defensive_unwind_credits_only_the_left_function :
    ∃ p, runSignals unwindSignals freshProfiler = Except.ok p ∧
      p.call_stack_ = [] ∧
      setFind (Function.Public 0) p.functions_ =
        some { type := FunctionType.PUBLIC, address := 0, num_calls := 1, time := 17,
               child_time := 0 } ∧
      setFind (Function.Normal 8) p.functions_ =
        some { type := FunctionType.NORMAL, address := 8, num_calls := 1, time := 0,
               child_time := 0 } ∧
      setFind (Function.Normal 16) p.functions_ =
        some { type := FunctionType.NORMAL, address := 16, num_calls := 1, time := 0,
               child_time := 0 } :=
  ⟨_, rfl, rfl, rfl, rfl, rfl⟩

/-! ## The step signal -/

/-- C3: with a frame of `Normal(8)` recorded at frame pointer 100 on top and
a step signal at frame pointer 200, `Debug` leaves the profiler as it is (no
exit is recorded for the normal function); with a frame of `Public(0)` on
top instead, the same signal pops the frame and credits its interval to the
record of `Public(0)`. -/
theorem Debug_unwound_leaves_public_top_only :
    Profiler.Debug pawnSdk sampleHookResult (sampleAmx 200 0) { total_time := 0 } normalOnTop =
      Except.ok { result := 0, profiler := normalOnTop, forwarded := [] } ∧
    Profiler.Debug pawnSdk sampleHookResult (sampleAmx 200 0) { total_time := 0 } publicOnTop =
      Except.ok
        { result := 0
          profiler :=
            { freshProfiler with
              call_stack_ := []
              functions_ :=
                [ { type := FunctionType.PUBLIC, address := 0, num_calls := 1, time := 3,
                    child_time := 0 } ] }
          forwarded := [] } := by
  constructor <;> rfl

/-- The entry branch of `Debug`: below the reference frame, the opcode 46
two cells before the instruction pointer makes `Debug` enter a normal
function; any other opcode changes nothing. -/
theorem Debug_entry_branch (sdk : AmxSdk)
    (hookResult : DebugHook → AMX → Int) (amx : AMX) (timer : Timer) (p : Profiler)
    (hfrm : amx.frm < prevFrame amx p.call_stack_) :
    (ReadAmxCode amx (toCell sdk (amx.cip - 2 * (sdk.sizeof_cell : Int))) = 46 →
      ∃ out, Profiler.Debug sdk hookResult amx timer p = Except.ok out ∧
        out.profiler = p.EnterFunction
          ⟨Function.Normal (toCell sdk (amx.cip - 2 * (sdk.sizeof_cell : Int))), amx.frm, timer⟩ ∧
        out.profiler.call_stack_ =
          ⟨Function.Normal (toCell sdk (amx.cip - 2 * (sdk.sizeof_cell : Int))), amx.frm, timer⟩
            :: p.call_stack_ ∧
        callCount (Function.Normal (toCell sdk (amx.cip - 2 * (sdk.sizeof_cell : Int))))
            out.profiler.functions_ =
          callCount (Function.Normal (toCell sdk (amx.cip - 2 * (sdk.sizeof_cell : Int))))
            p.functions_ + 1) ∧
    (ReadAmxCode amx (toCell sdk (amx.cip - 2 * (sdk.sizeof_cell : Int))) ≠ 46 →
      ∃ out, Profiler.Debug sdk hookResult amx timer p = Except.ok out ∧ out.profiler = p) := by
  constructor
  · intro hop
    have hdebug : (p.EnterFunction
        ⟨Function.Normal (toCell sdk (amx.cip - 2 * (sdk.sizeof_cell : Int))), amx.frm,
          timer⟩).debug_ = p.debug_ := by
      unfold Profiler.EnterFunction
      cases h : setFind (Function.Normal (toCell sdk (amx.cip - 2 * (sdk.sizeof_cell : Int))))
        p.functions_ <;> simp [h]
    have hcount := callCount_EnterFunction_create FunctionType.NORMAL
      (toCell sdk (amx.cip - 2 * (sdk.sizeof_cell : Int))) amx.frm timer p FunctionType.NORMAL
      (toCell sdk (amx.cip - 2 * (sdk.sizeof_cell : Int)))
    simp only [and_self, if_true] at hcount
    cases hd : p.debug_ with
    | none =>
      refine ⟨⟨sdk.AMX_ERR_NONE, p.EnterFunction
        ⟨Function.Normal (toCell sdk (amx.cip - 2 * (sdk.sizeof_cell : Int))), amx.frm, timer⟩,
        []⟩, ?_, rfl, call_stack_EnterFunction _ _, hcount⟩
      simp [Profiler.Debug, hfrm, hop, hdebug, hd]
    | some hook =>
      refine ⟨⟨hookResult hook amx, p.EnterFunction
        ⟨Function.Normal (toCell sdk (amx.cip - 2 * (sdk.sizeof_cell : Int))), amx.frm, timer⟩,
        [hook]⟩, ?_, rfl, call_stack_EnterFunction _ _, hcount⟩
      simp [Profiler.Debug, hfrm, hop, hdebug, hd]
  · intro hop
    cases hd : p.debug_ with
    | none =>
      refine ⟨⟨sdk.AMX_ERR_NONE, p, []⟩, ?_, rfl⟩
      simp [Profiler.Debug, hfrm, hop, hd]
    | some hook =>
      refine ⟨⟨hookResult hook amx, p, [hook]⟩, ?_, rfl⟩
      simp [Profiler.Debug, hfrm, hop, hd]

theorem toCell_of_in_range (sdk : AmxSdk) (x : Int)
    (hlow : -((2 : Int) ^ (8 * sdk.sizeof_cell) / 2) ≤ x)
    (hhigh : x < (2 : Int) ^ (8 * sdk.sizeof_cell) / 2) : toCell sdk x = x := by
  unfold toCell
  have hm : (0 : Int) < (2 : Int) ^ (8 * sdk.sizeof_cell) := by positivity
  generalize (2 : Int) ^ (8 * sdk.sizeof_cell) = m at *
  simp only []
  rw [Int.emod_eq_of_lt (by omega) (by omega)]
  omega

/-- C4: let the step signal fire with a current frame pointer less than the
reference: `stp` when the call stack is empty, the frame pointer recorded in
the top frame otherwise. `Debug` looks at the cell of the code section two
cells before the current instruction pointer (an address that is the plain
difference whenever that fits a cell). If the cell holds 46, `Debug`
succeeds, the frame of `Normal(address)` recording the current frame pointer
is pushed on the call stack and the call count of `Normal(address)` grows by
one. If the cell holds anything else, `Debug` succeeds and the profiler
(call stack and statistics) is unchanged. -/
theorem Debug_deeper_frame_enters_on_proc_opcode (sdk : AmxSdk)
    (hookResult : DebugHook → AMX → Int) (amx : AMX) (timer : Timer) (p : Profiler)
    (hfrm : (p.call_stack_ = [] ∧ amx.frm < amx.stp) ∨
      (∃ top rest, p.call_stack_ = top :: rest ∧ amx.frm < top.frame)) :
    (amx.code (toCell sdk (amx.cip - 2 * (sdk.sizeof_cell : Int))) = 46 →
      ∃ out, Profiler.Debug sdk hookResult amx timer p = Except.ok out ∧
        out.profiler.call_stack_ =
          { function :=
              { type := FunctionType.NORMAL
                address := toCell sdk (amx.cip - 2 * (sdk.sizeof_cell : Int))
                num_calls := 0, time := 0, child_time := 0 }
            frame := amx.frm
            timer := timer } :: p.call_stack_ ∧
        out.profiler = p.EnterFunction
          ⟨Function.Normal (toCell sdk (amx.cip - 2 * (sdk.sizeof_cell : Int))), amx.frm, timer⟩ ∧
        callCount (Function.Normal (toCell sdk (amx.cip - 2 * (sdk.sizeof_cell : Int))))
            out.profiler.functions_ =
          callCount (Function.Normal (toCell sdk (amx.cip - 2 * (sdk.sizeof_cell : Int))))
            p.functions_ + 1) ∧
    (amx.code (toCell sdk (amx.cip - 2 * (sdk.sizeof_cell : Int))) ≠ 46 →
      ∃ out, Profiler.Debug sdk hookResult amx timer p = Except.ok out ∧ out.profiler = p) ∧
    (-((2 : Int) ^ (8 * sdk.sizeof_cell) / 2) ≤ amx.cip - 2 * (sdk.sizeof_cell : Int) →
      amx.cip - 2 * (sdk.sizeof_cell : Int) < (2 : Int) ^ (8 * sdk.sizeof_cell) / 2 →
      toCell sdk (amx.cip - 2 * (sdk.sizeof_cell : Int)) =
        amx.cip - 2 * (sdk.sizeof_cell : Int)) := by
  have hlt : amx.frm < prevFrame amx p.call_stack_ := by
    rcases hfrm with ⟨hcs, h⟩ | ⟨top, rest, hcs, h⟩
    · rw [hcs]; exact h
    · rw [hcs]; exact h
  have hbranch := Debug_entry_branch sdk hookResult amx timer p hlt
  refine ⟨?_, ?_, toCell_of_in_range sdk _⟩
  · intro hop
    obtain ⟨out, h1, h2, h3, h4⟩ := hbranch.1 hop
    exact ⟨out, h1, h3, h2, h4⟩
  · intro hop
    exact hbranch.2 hop

/-- C4 at concrete inputs. On the frame of `Normal(8)` recorded at 100, a step
signal at frame pointer 50 with the instruction pointer 48, two cells after
the opcode 46 stored at 40, pushes the frame of `Normal(40)`; the same signal
with the instruction pointer 0, two cells after a cell that holds 0, changes
nothing. On the empty stack the reference is `stp`, 1000, and the first
signal pushes the frame of `Normal(40)` as well. -/
theorem Debug_deeper_frame_witness :
    ((∃ top rest, normalOnTop.call_stack_ = top :: rest ∧ (sampleAmx 50 48).frm < top.frame) ∧
      (sampleAmx 50 48).code 40 = 46 ∧
      ∃ out, Profiler.Debug pawnSdk sampleHookResult (sampleAmx 50 48) { total_time := 3 }
          normalOnTop = Except.ok out ∧
        out.profiler.call_stack_ =
          [ ⟨⟨FunctionType.NORMAL, 40, 0, 0, 0⟩, 50, { total_time := 3 }⟩,
            ⟨⟨FunctionType.NORMAL, 8, 0, 0, 0⟩, 100, { total_time := 3 }⟩ ]) ∧
    ((sampleAmx 50 0).code (-8) ≠ 46 ∧
      ∃ out, Profiler.Debug pawnSdk sampleHookResult (sampleAmx 50 0) { total_time := 3 }
          normalOnTop = Except.ok out ∧ out.profiler = normalOnTop) ∧
    ((freshProfiler.call_stack_ = [] ∧ (sampleAmx 50 48).frm < (sampleAmx 50 48).stp) ∧
      ∃ out, Profiler.Debug pawnSdk sampleHookResult (sampleAmx 50 48) { total_time := 3 }
          freshProfiler = Except.ok out ∧
        out.profiler.call_stack_ =
          [⟨⟨FunctionType.NORMAL, 40, 0, 0, 0⟩, 50, { total_time := 3 }⟩]) := by
  have hnormal : ∃ top rest, normalOnTop.call_stack_ = top :: rest ∧
      (sampleAmx 50 48).frm < top.frame :=
    ⟨⟨Function.Normal 8, 100, { total_time := 3 }⟩, [], rfl, by decide⟩
  have hnormal0 : ∃ top rest, normalOnTop.call_stack_ = top :: rest ∧
      (sampleAmx 50 0).frm < top.frame :=
    ⟨⟨Function.Normal 8, 100, { total_time := 3 }⟩, [], rfl, by decide⟩
  have hfresh : freshProfiler.call_stack_ = [] ∧ (sampleAmx 50 48).frm < (sampleAmx 50 48).stp :=
    ⟨rfl, by decide⟩
  refine ⟨⟨hnormal, by decide, ?_⟩, ⟨by decide, ?_⟩, ⟨hfresh, ?_⟩⟩
  · obtain ⟨out, h1, h2, _⟩ :=
      (Debug_deeper_frame_enters_on_proc_opcode pawnSdk sampleHookResult (sampleAmx 50 48)
        { total_time := 3 } normalOnTop (Or.inr hnormal)).1 (by decide)
    exact ⟨out, h1, h2.trans rfl⟩
  · exact (Debug_deeper_frame_enters_on_proc_opcode pawnSdk sampleHookResult (sampleAmx 50 0)
        { total_time := 3 } normalOnTop (Or.inr hnormal0)).2.1 (by decide)
  · obtain ⟨out, h1, h2, _⟩ :=
      (Debug_deeper_frame_enters_on_proc_opcode pawnSdk sampleHookResult (sampleAmx 50 48)
        { total_time := 3 } freshProfiler (Or.inl hfresh)).1 (by decide)
    exact ⟨out, h1, h2.trans rfl⟩

/-! ## Explicit call wrapping -/

theorem wrap_result (f : Function) (e : Int) (p2 : Profiler) :
    (match p2.LeaveFunction f with
      | Except.error err => Except.error err
      | Except.ok p3 => Except.ok (e, p3)) =
      Except.map (fun p3 => (e, p3)) (p2.LeaveFunction f) := by
  cases p2.LeaveFunction f <;> rfl

/-- C7: `Callback` and, for an index that is not negative or is the main
sentinel, `Exec` push a frame, run the host call and then run
`LeaveFunction` on what the host call left, whatever the error code `e` of
the host call: the result is that of `LeaveFunction` paired with `e`. When
the host call leaves the call stack as it found it, they succeed with `e`
and the call stack is the one before the call. For a negative index other
than the main sentinel, `Exec` returns what the host call returns on the
untouched profiler. -/
theorem Exec_and_Callback_return_host_error_and_leave (sdk : AmxSdk) (amx : AMX)
    (amx_Callback amx_Exec : Profiler → Int × Profiler) (timer : Timer) (index : Int)
    (p : Profiler) :
    (∀ e p2, amx_Callback (p.EnterFunction ⟨Function.Native index, amx.frm, timer⟩) = (e, p2) →
      Profiler.Callback amx amx_Callback timer index p =
          Except.map (fun p3 => (e, p3)) (p2.LeaveFunction (Function.Native index)) ∧
      (p2.call_stack_ =
          (p.EnterFunction ⟨Function.Native index, amx.frm, timer⟩).call_stack_ →
        ∃ p3, Profiler.Callback amx amx_Callback timer index p = Except.ok (e, p3) ∧
          p3.call_stack_ = p.call_stack_)) ∧
    (index ≥ 0 ∨ index = sdk.AMX_EXEC_MAIN →
      ∀ e p2, amx_Exec (p.EnterFunction ⟨Function.Public index,
          toCell sdk (amx.stk - 3 * (sdk.sizeof_cell : Int)), timer⟩) = (e, p2) →
        Profiler.Exec sdk amx amx_Exec timer index p =
            Except.map (fun p3 => (e, p3)) (p2.LeaveFunction (Function.Public index)) ∧
        (p2.call_stack_ = (p.EnterFunction ⟨Function.Public index,
            toCell sdk (amx.stk - 3 * (sdk.sizeof_cell : Int)), timer⟩).call_stack_ →
          ∃ p3, Profiler.Exec sdk amx amx_Exec timer index p = Except.ok (e, p3) ∧
            p3.call_stack_ = p.call_stack_)) ∧
    (index < 0 → index ≠ sdk.AMX_EXEC_MAIN →
      Profiler.Exec sdk amx amx_Exec timer index p = Except.ok (amx_Exec p)) := by
  refine ⟨?_, ?_, ?_⟩
  · intro e p2 hhost
    have hcb : Profiler.Callback amx amx_Callback timer index p =
        Except.map (fun p3 => (e, p3)) (p2.LeaveFunction (Function.Native index)) := by
      rw [← wrap_result]
      simp [Profiler.Callback, hhost]
    refine ⟨hcb, ?_⟩
    intro hstack
    rw [call_stack_EnterFunction] at hstack
    obtain ⟨p3, hleave, hs3, _⟩ := LeaveFunction_top_spec (Function.Native index) p2
      ⟨Function.Native index, amx.frm, timer⟩ p.call_stack_ hstack
      (by simp [Function.equals])
    exact ⟨p3, by rw [hcb, hleave]; rfl, hs3⟩
  · intro hidx e p2 hhost
    have hex : Profiler.Exec sdk amx amx_Exec timer index p =
        Except.map (fun p3 => (e, p3)) (p2.LeaveFunction (Function.Public index)) := by
      rw [← wrap_result]
      simp [Profiler.Exec, hidx, hhost]
    refine ⟨hex, ?_⟩
    intro hstack
    rw [call_stack_EnterFunction] at hstack
    obtain ⟨p3, hleave, hs3, _⟩ := LeaveFunction_top_spec (Function.Public index) p2
      ⟨Function.Public index, toCell sdk (amx.stk - 3 * (sdk.sizeof_cell : Int)), timer⟩
      p.call_stack_ hstack (by simp [Function.equals])
    exact ⟨p3, by rw [hex, hleave]; rfl, hs3⟩
  · intro hneg hmain
    have hcond : ¬ (index ≥ 0 ∨ index = sdk.AMX_EXEC_MAIN) := by
      intro h
      rcases h with h | h
      · omega
      · exact hmain h
    simp [Profiler.Exec, hcond]

/-! ## Exit for an identity without a record -/

/-- C9 as stated fails: after `ResetStats` has cleared the
table while the frame of `Normal(8)` was on the stack, the table has no
record for `Normal(8)` and `LeaveFunction` for it completes without an
error, so it does not fail with `UnknownFunctionError`. -/
theorem LeaveFunction_without_record_completes_silently :
    setFind (Function.Normal 8) normalOnTop.ResetStats.functions_ = none ∧
    normalOnTop.ResetStats.LeaveFunction (Function.Normal 8) = Except.ok freshProfiler ∧
    normalOnTop.ResetStats.LeaveFunction (Function.Normal 8) ≠
      Except.error ProfilerError.UnknownFunctionError := by
  refine ⟨rfl, rfl, ?_⟩
  intro h
  have h2 : normalOnTop.ResetStats.LeaveFunction (Function.Normal 8) = Except.ok freshProfiler :=
    rfl
  rw [h2] at h
  cases h

/-- C9, amended: an exit for an identity that has a frame on the call stack
completes without error. When the table has no record for the identity the
table is unchanged. When the frame on top of the stack is a frame of the
identity and the table has the record `r` for it, that frame is popped and
the record becomes `r` with the interval of the popped frame added to its
total time. -/
theorem LeaveFunction_on_stack_succeeds_and_credits_record (f : Function) (p : Profiler)
    (hon : ∃ c, c ∈ p.call_stack_ ∧ c.function.equals f = true) :
    ∃ p1, p.LeaveFunction f = Except.ok p1 ∧
      (setFind f p.functions_ = none → p1.functions_ = p.functions_) ∧
      (∀ c st r, p.call_stack_ = c :: st → c.function.equals f = true →
        setFind f p.functions_ = some r →
        p1.call_stack_ = st ∧
        setFind f p1.functions_ = some { r with time := r.time + c.timer.total_time }) := by
  obtain ⟨fs1, hrun, hfind, hnone⟩ := leaveLoop_ok f p.call_stack_ p.functions_ hon
  refine ⟨{ p with call_stack_ := p.call_stack_.drop (poppedFrames f p.call_stack_).length,
                   functions_ := fs1 }, ?_, hnone, ?_⟩
  · simp [Profiler.LeaveFunction, hrun]
  · intro c st r hcs hc hr
    have hself : f.equals f = true := by simp [Function.equals]
    have h := hfind f
    rw [if_pos hself, hr, hcs] at h
    constructor
    · simp [hcs, poppedFrames, hc]
    · simpa [Function.AdjustTime, poppedFrames, hc, elapsedSum] using h

/-- C9, amended, at a concrete input: the exit for `Normal(8)` when its frame,
with a timer that reports 3, is on top of the stack and its record has one
call and no time. -/
theorem LeaveFunction_on_stack_witness :
    (∃ c, c ∈ normalOnTop.call_stack_ ∧ c.function.equals (Function.Normal 8) = true) ∧
    ∃ p1, normalOnTop.LeaveFunction (Function.Normal 8) = Except.ok p1 ∧
      p1.call_stack_ = [] ∧
      setFind (Function.Normal 8) p1.functions_ =
        some { type := FunctionType.NORMAL, address := 8, num_calls := 1, time := 3,
               child_time := 0 } := by
  have hon : ∃ c, c ∈ normalOnTop.call_stack_ ∧ c.function.equals (Function.Normal 8) = true :=
    ⟨⟨Function.Normal 8, 100, { total_time := 3 }⟩, by decide, by decide⟩
  refine ⟨hon, ?_⟩
  obtain ⟨p1, h1, _, h3⟩ := LeaveFunction_on_stack_succeeds_and_credits_record
    (Function.Normal 8) normalOnTop hon
  have h := h3 ⟨Function.Normal 8, 100, { total_time := 3 }⟩ []
    { type := FunctionType.NORMAL, address := 8, num_calls := 1, time := 0, child_time := 0 }
    rfl rfl rfl
  exact ⟨p1, h1, h.1, h.2.trans rfl⟩

/-! ## Registry of profilers -/

theorem mapFind_mapSet {α : Type} (k k1 : Nat) (v : α) (m : List (Nat × α)) :
    mapFind k1 (mapSet k v m) = if k = k1 then some v else mapFind k1 m := by
  induction m with
  | nil => simp [mapSet, mapFind]
  | cons e es ih =>
    by_cases hk : k = k1
    · subst hk
      simp only [if_true] at ih
      by_cases hek : e.1 = k <;> simp [mapSet, mapFind, hek, ih]
    · simp only [if_neg hk] at ih
      by_cases hek : e.1 = k
      · have : ¬ e.1 = k1 := by rw [hek]; exact hk
        simp [mapSet, mapFind, hek, hk, this]
      · simp [mapSet, mapFind, hek, hk, ih]

/-- The process after `Attach`: the entry of the handle is a new profiler,
activated, and the hook of its AMX is the trampoline of the profiler. -/
theorem Attach_eq (h : Nat) (w : World) :
    Profiler.Attach h w =
      World.setAmx
        { w with instances_ :=
            (mapSet h { Profiler.new h w with active_ := true }
              (mapSet h (Profiler.new h w) w.instances_)) }
        h (amx_SetDebugHook (w.amx h) (some DebugHook.profilerDebug)) := by
  simp [Profiler.Attach, Profiler.Activate, Profiler.Get, mapFind_mapSet, Profiler.new]

theorem Get_Attach (h h1 : Nat) (w : World) :
    Profiler.Get h1 (Profiler.Attach h w) =
      if h = h1 then some { Profiler.new h w with active_ := true } else Profiler.Get h1 w := by
  rw [Attach_eq]
  simp only [Profiler.Get, World.setAmx, mapFind_mapSet]
  by_cases hh : h = h1 <;> simp [hh]

/-- C10: `IsScriptProfilable` is false exactly when the debug flag is clear
and the no-checks flag is set; loading a script for which it is false
returns the success code and leaves the process, hence the registry and
what `Get` returns for the handle, unchanged. -/
theorem AmxLoad_refuses_script_that_is_not_profilable (sdk : AmxSdk) (filename : String)
    (wantsProfiler hasDebugInfo : Bool) (loaded : Option DebugInfo) (h : Nat) (w : World)
    (hnot : IsScriptProfilable sdk (w.amx h) = false) :
    (∀ amx : AMX, IsScriptProfilable sdk amx = false ↔
      (amx.flags &&& sdk.AMX_FLAG_DEBUG = 0 ∧ amx.flags &&& sdk.AMX_FLAG_NOCHECKS ≠ 0)) ∧
    AmxLoad sdk filename wantsProfiler hasDebugInfo loaded h w = (sdk.AMX_ERR_NONE, w) ∧
    (AmxLoad sdk filename wantsProfiler hasDebugInfo loaded h w).2.instances_ = w.instances_ ∧
    Profiler.Get h (AmxLoad sdk filename wantsProfiler hasDebugInfo loaded h w).2 =
      Profiler.Get h w := by
  have hload : AmxLoad sdk filename wantsProfiler hasDebugInfo loaded h w =
      (sdk.AMX_ERR_NONE, w) := by
    unfold AmxLoad
    by_cases hf : filename.isEmpty = true
    · simp [hf]
    · simp [hf, hnot]
  refine ⟨?_, hload, by rw [hload], by rw [hload]⟩
  intro amx
  unfold IsScriptProfilable
  by_cases hd : amx.flags &&& sdk.AMX_FLAG_DEBUG = 0
  · by_cases hn : amx.flags &&& sdk.AMX_FLAG_NOCHECKS = 0
    · simp [hd, hn]
    · simp [hd, hn]
  · simp [hd]

/-- C10 at a concrete input: a script compiled with the no-checks flag (16)
and without the debug flag (2), that the configuration asks to profile. -/
theorem AmxLoad_refuses_witness :
    IsScriptProfilable pawnSdk ((sampleWorld 16).amx 1) = false ∧
    (AmxLoad pawnSdk "gamemodes/lvdm.amx" true false none 1 (sampleWorld 16)).1 = 0 ∧
    Profiler.Get 1 (AmxLoad pawnSdk "gamemodes/lvdm.amx" true false none 1 (sampleWorld 16)).2 =
      none := by
  have hnot : IsScriptProfilable pawnSdk ((sampleWorld 16).amx 1) = false := by decide
  obtain ⟨_, h2, _, h4⟩ := AmxLoad_refuses_script_that_is_not_profilable pawnSdk
    "gamemodes/lvdm.amx" true false none 1 (sampleWorld 16) hnot
  exact ⟨hnot, by rw [h2]; rfl, h4.trans rfl⟩

/-! ## Lemmas on `Debug` -/

theorem equals_self (f : Function) : f.equals f = true := by
  simp [Function.equals]

theorem Debug_eq_step_then_forward (sdk : AmxSdk) (hookResult : DebugHook → AMX → Int)
    (amx : AMX) (timer : Timer) (p : Profiler) :
    Profiler.Debug sdk hookResult amx timer p =
      match debugStep sdk amx timer p with
      | Except.error e => Except.error e
      | Except.ok p1 => Except.ok (forwardToSavedHook sdk hookResult amx p1) := by
  have h : Profiler.Debug sdk hookResult amx timer p =
      match debugStep sdk amx timer p with
      | Except.error e => Except.error e
      | Except.ok p1 =>
        match p1.debug_ with
        | some hook =>
          Except.ok { result := hookResult hook amx, profiler := p1, forwarded := [hook] }
        | none => Except.ok { result := sdk.AMX_ERR_NONE, profiler := p1, forwarded := [] } := rfl
  rw [h]
  cases debugStep sdk amx timer p with
  | error e => rfl
  | ok p1 =>
    simp only [forwardToSavedHook]
    cases p1.debug_ <;> rfl

theorem debug_EnterFunction (call : CallInfo) (p : Profiler) :
    (p.EnterFunction call).debug_ = p.debug_ := by
  unfold Profiler.EnterFunction
  cases h : setFind call.function p.functions_ <;> simp [h]

theorem debug_LeaveFunction (f : Function) (p p1 : Profiler)
    (h : p.LeaveFunction f = Except.ok p1) : p1.debug_ = p.debug_ := by
  unfold Profiler.LeaveFunction at h
  cases hl : leaveLoop f p.call_stack_ p.functions_ with
  | error e => rw [hl] at h; cases h
  | ok r =>
    rw [hl] at h
    cases h
    rfl

/-- The effect of the step of `Debug` on the call stack: a frame recording
the current frame pointer, below the reference frame, is pushed; or the top
frame is popped; or the stack is unchanged. The saved hook is unchanged. -/
theorem debugStep_effect (sdk : AmxSdk) (amx : AMX) (timer : Timer) (p p1 : Profiler)
    (h : debugStep sdk amx timer p = Except.ok p1) :
    p1.debug_ = p.debug_ ∧
    ((∃ c, p1.call_stack_ = c :: p.call_stack_ ∧ c.frame = amx.frm ∧
        amx.frm < prevFrame amx p.call_stack_) ∨
      (∃ c, p.call_stack_ = c :: p1.call_stack_) ∨
      p1.call_stack_ = p.call_stack_) := by
  unfold debugStep at h
  by_cases hlt : amx.frm < prevFrame amx p.call_stack_
  · rw [if_pos hlt] at h
    by_cases hop : ReadAmxCode amx (toCell sdk (amx.cip - 2 * (sdk.sizeof_cell : Int))) = 46
    · rw [if_pos hop] at h
      cases h
      exact ⟨debug_EnterFunction _ _, Or.inl ⟨_, call_stack_EnterFunction _ _, rfl, hlt⟩⟩
    · rw [if_neg hop] at h
      cases h
      exact ⟨rfl, Or.inr (Or.inr rfl)⟩
  · rw [if_neg hlt] at h
    by_cases hgt : amx.frm > prevFrame amx p.call_stack_
    · rw [if_pos hgt] at h
      cases hcs : p.call_stack_ with
      | nil => rw [hcs] at h; simp [CallStack.GetTop] at h
      | cons top rest =>
        rw [hcs] at h
        simp only [CallStack.GetTop] at h
        by_cases hpub : top.function.type = FunctionType.PUBLIC
        · rw [if_pos hpub, LeaveFunction_top top.function p top rest hcs (equals_self _)] at h
          cases h
          exact ⟨rfl, Or.inr (Or.inl ⟨top, rfl⟩)⟩
        · rw [if_neg hpub] at h
          cases h
          exact ⟨rfl, Or.inr (Or.inr hcs)⟩
    · rw [if_neg hgt] at h
      cases h
      exact ⟨rfl, Or.inr (Or.inr rfl)⟩

/-- The step of `Debug` succeeds unless it has to read the top of an empty
stack, which takes a frame pointer above `stp`. -/
theorem debugStep_ok (sdk : AmxSdk) (amx : AMX) (timer : Timer) (p : Profiler)
    (hsafe : p.call_stack_ = [] → amx.frm ≤ amx.stp) :
    ∃ p1, debugStep sdk amx timer p = Except.ok p1 := by
  unfold debugStep
  by_cases hlt : amx.frm < prevFrame amx p.call_stack_
  · rw [if_pos hlt]
    by_cases hop : ReadAmxCode amx (toCell sdk (amx.cip - 2 * (sdk.sizeof_cell : Int))) = 46
    · rw [if_pos hop]; exact ⟨_, rfl⟩
    · rw [if_neg hop]; exact ⟨_, rfl⟩
  · rw [if_neg hlt]
    by_cases hgt : amx.frm > prevFrame amx p.call_stack_
    · rw [if_pos hgt]
      cases hcs : p.call_stack_ with
      | nil =>
        exfalso
        have h1 := hsafe hcs
        rw [hcs] at hgt
        simp only [prevFrame] at hgt
        omega
      | cons top rest =>
        simp only [CallStack.GetTop]
        by_cases hpub : top.function.type = FunctionType.PUBLIC
        · rw [if_pos hpub, LeaveFunction_top top.function p top rest hcs (equals_self _)]
          exact ⟨_, rfl⟩
        · rw [if_neg hpub]; exact ⟨_, rfl⟩
    · rw [if_neg hgt]; exact ⟨_, rfl⟩

theorem debugStep_equal_frames (sdk : AmxSdk) (amx : AMX) (timer : Timer) (p : Profiler)
    (heq : amx.frm = prevFrame amx p.call_stack_) :
    debugStep sdk amx timer p = Except.ok p := by
  unfold debugStep
  have hlt : ¬ amx.frm < prevFrame amx p.call_stack_ := by omega
  have hgt : ¬ amx.frm > prevFrame amx p.call_stack_ := by omega
  rw [if_neg hlt, if_neg hgt]

/-! ## The frames that an exit pops -/

theorem poppedFrames_split (f : Function) :
    ∀ st : CallStack, (∃ c, c ∈ st ∧ c.function.equals f = true) →
      ∃ above c below, st = above ++ c :: below ∧
        (∀ a, a ∈ above → a.function.equals f = false) ∧
        c.function.equals f = true ∧
        poppedFrames f st = above ++ [c] ∧
        st.drop (poppedFrames f st).length = below := by
  intro st
  induction st with
  | nil => intro h; obtain ⟨c, hc, _⟩ := h; simp at hc
  | cons x rest ih =>
    intro h
    by_cases hx : x.function.equals f = true
    · refine ⟨[], x, rest, rfl, ?_, hx, ?_, ?_⟩
      · intro a ha; simp at ha
      · simp [poppedFrames, hx]
      · simp [poppedFrames, hx]
    · have hrest : ∃ c, c ∈ rest ∧ c.function.equals f = true := by
        obtain ⟨c, hmem, heq⟩ := h
        rcases List.mem_cons.1 hmem with h1 | h1
        · subst h1; exact absurd heq hx
        · exact ⟨c, h1, heq⟩
      obtain ⟨above, c, below, hst, habove, hc, hpop, hdrop⟩ := ih hrest
      refine ⟨x :: above, c, below, ?_, ?_, hc, ?_, ?_⟩
      · simp [hst]
      · intro a ha
        rcases List.mem_cons.1 ha with h1 | h1
        · subst h1; simpa using hx
        · exact habove a h1
      · simp [poppedFrames, hx, hpop]
      · simpa [poppedFrames, hx] using hdrop

/-- C11: when some frame of the call stack has the identity `f`,
`LeaveFunction(f)` returns without error. The stack splits into `k` frames
of other identities on top, the topmost frame `c` of identity `f` and the
frames below it; the exit removes the `k + 1` frames down to and including
`c`, and the stack after it is the list of the frames below, unchanged and
in the same order. -/
theorem LeaveFunction_pops_down_to_topmost_match (f : Function) (p : Profiler)
    (hon : ∃ c, c ∈ p.call_stack_ ∧ c.function.equals f = true) :
    ∃ above c below p1,
      p.call_stack_ = above ++ c :: below ∧
      (∀ a, a ∈ above → a.function.equals f = false) ∧
      c.function.equals f = true ∧
      p.LeaveFunction f = Except.ok p1 ∧
      p1.call_stack_ = below ∧
      p.call_stack_.length = p1.call_stack_.length + (above.length + 1) := by
  obtain ⟨above, c, below, hst, habove, hc, _, hdrop⟩ := poppedFrames_split f p.call_stack_ hon
  obtain ⟨fs1, hrun, _, _⟩ := leaveLoop_ok f p.call_stack_ p.functions_ hon
  refine ⟨above, c, below, { p with call_stack_ := below, functions_ := fs1 }, hst, habove, hc,
    ?_, rfl, ?_⟩
  · simp [Profiler.LeaveFunction, hrun, hdrop]
  · simp [hst]
    omega

/-- C11 at a concrete input: the exit for `Public(0)` below the frames of
`Normal(16)` and `Normal(8)` pops the three frames. -/
theorem LeaveFunction_pops_witness :
    (∃ c, c ∈ beforeUnwind.call_stack_ ∧ c.function.equals (Function.Public 0) = true) ∧
    (∃ above c below p1,
      beforeUnwind.call_stack_ = above ++ c :: below ∧
      (∀ a, a ∈ above → a.function.equals (Function.Public 0) = false) ∧
      c.function.equals (Function.Public 0) = true ∧
      beforeUnwind.LeaveFunction (Function.Public 0) = Except.ok p1 ∧
      p1.call_stack_ = below ∧
      beforeUnwind.call_stack_.length = p1.call_stack_.length + (above.length + 1)) ∧
    beforeUnwind.call_stack_.length = 3 ∧
    ∃ p1, beforeUnwind.LeaveFunction (Function.Public 0) = Except.ok p1 ∧ p1.call_stack_ = [] := by
  have hon : ∃ c, c ∈ beforeUnwind.call_stack_ ∧ c.function.equals (Function.Public 0) = true :=
    ⟨⟨Function.Public 0, 1000, { total_time := 10 }⟩, by decide, by decide⟩
  exact ⟨hon, LeaveFunction_pops_down_to_topmost_match (Function.Public 0) beforeUnwind hon,
    rfl, _, rfl, rfl⟩

/-! ## Order of the recorded frame pointers -/

theorem forwardToSavedHook_profiler (sdk : AmxSdk) (hookResult : DebugHook → AMX → Int)
    (amx : AMX) (p : Profiler) : (forwardToSavedHook sdk hookResult amx p).profiler = p := by
  unfold forwardToSavedHook
  cases p.debug_ <;> rfl

theorem Debug_ok_iff (sdk : AmxSdk) (hookResult : DebugHook → AMX → Int) (amx : AMX)
    (timer : Timer) (p : Profiler) (out : DebugOutcome) :
    Profiler.Debug sdk hookResult amx timer p = Except.ok out ↔
      ∃ p1, debugStep sdk amx timer p = Except.ok p1 ∧
        out = forwardToSavedHook sdk hookResult amx p1 := by
  rw [Debug_eq_step_then_forward]
  cases debugStep sdk amx timer p with
  | error e => simp
  | ok p1 =>
    constructor
    · intro h
      cases h
      exact ⟨p1, rfl, rfl⟩
    · rintro ⟨p2, h2, hout⟩
      cases h2
      rw [hout]

theorem leaveLoop_suffix (f : Function) :
    ∀ (st : CallStack) (fs : List Function) (st1 : CallStack) (fs1 : List Function),
      leaveLoop f st fs = Except.ok (st1, fs1) → st1 <:+ st := by
  intro st
  induction st with
  | nil => intro fs st1 fs1 h; simp [leaveLoop] at h
  | cons c rest ih =>
    intro fs st1 fs1 h
    by_cases hc : c.function.equals f = true
    · simp [leaveLoop, hc] at h
      rw [← h.1]
      exact List.suffix_cons c rest
    · simp [leaveLoop, hc] at h
      exact (ih _ _ _ h).trans (List.suffix_cons c rest)

theorem LeaveFunction_suffix (f : Function) (p p1 : Profiler)
    (h : p.LeaveFunction f = Except.ok p1) : p1.call_stack_ <:+ p.call_stack_ := by
  unfold Profiler.LeaveFunction at h
  cases hl : leaveLoop f p.call_stack_ p.functions_ with
  | error e => rw [hl] at h; cases h
  | ok r =>
    obtain ⟨st1, fs1⟩ := r
    rw [hl] at h
    cases h
    exact leaveLoop_suffix f _ _ _ _ hl

/-- The step of `Debug`, with the frame it pushes: a frame of a normal
function that records the current frame pointer, below the reference
frame. -/
theorem debugStep_push_or_not (sdk : AmxSdk) (amx : AMX) (timer : Timer) (p p1 : Profiler)
    (h : debugStep sdk amx timer p = Except.ok p1) :
    (∃ address, p1.call_stack_ = ⟨Function.Normal address, amx.frm, timer⟩ :: p.call_stack_ ∧
        amx.frm < prevFrame amx p.call_stack_) ∨
      (∃ c, p.call_stack_ = c :: p1.call_stack_) ∨
      p1.call_stack_ = p.call_stack_ := by
  unfold debugStep at h
  by_cases hlt : amx.frm < prevFrame amx p.call_stack_
  · rw [if_pos hlt] at h
    by_cases hop : ReadAmxCode amx (toCell sdk (amx.cip - 2 * (sdk.sizeof_cell : Int))) = 46
    · rw [if_pos hop] at h
      cases h
      exact Or.inl ⟨_, call_stack_EnterFunction _ _, hlt⟩
    · rw [if_neg hop] at h
      cases h
      exact Or.inr (Or.inr rfl)
  · have hno : ¬ ∃ c, p1.call_stack_ = c :: p.call_stack_ ∧ c.frame = amx.frm ∧
        amx.frm < prevFrame amx p.call_stack_ := by
      rintro ⟨c, _, _, hc⟩
      exact hlt hc
    rcases (debugStep_effect sdk amx timer p p1 h).2 with hpush | hrest
    · exact absurd hpush hno
    · exact Or.inr hrest

theorem prevFrame_lt_cases (amx : AMX) (st : CallStack) (x : Int)
    (h : x < prevFrame amx st) :
    (st = [] ∧ x < amx.stp) ∨ (∃ top rest, st = top :: rest ∧ x < top.frame) := by
  cases st with
  | nil => exact Or.inl ⟨rfl, h⟩
  | cons top rest => exact Or.inr ⟨top, rest, rfl, h⟩

/-- One event that is not an explicit entry of a normal function keeps the
frames of normal functions below the frame under them. -/
theorem deliver_normalFramesBelow (sdk : AmxSdk) (hookResult : DebugHook → AMX → Int)
    (e : EngineEvent) (p p1 : Profiler) (hord : normalFramesBelow p.call_stack_)
    (hcall : notExplicitNormalEntry e = true)
    (hd : e.deliver sdk hookResult p = Except.ok p1) : normalFramesBelow p1.call_stack_ := by
  cases e with
  | explicit s =>
    cases s with
    | enter t k frame timer =>
      simp only [EngineEvent.deliver, Signal.deliver] at hd
      cases hd
      rw [call_stack_EnterFunction]
      unfold normalFramesBelow at *
      apply List.Chain'.cons' hord
      intro y _ hnormal
      exfalso
      simp only [Function.create] at hnormal
      subst hnormal
      simp [notExplicitNormalEntry] at hcall
    | leave t k =>
      simp only [EngineEvent.deliver, Signal.deliver] at hd
      exact List.Chain'.suffix hord (LeaveFunction_suffix _ _ _ hd)
  | step amx timer =>
    simp only [EngineEvent.deliver] at hd
    cases hdebug : Profiler.Debug sdk hookResult amx timer p with
    | error err => rw [hdebug] at hd; cases hd
    | ok out =>
      rw [hdebug] at hd
      cases hd
      obtain ⟨p2, hstep, hout⟩ := (Debug_ok_iff sdk hookResult amx timer p out).1 hdebug
      rw [hout, forwardToSavedHook_profiler]
      rcases debugStep_push_or_not sdk amx timer p p2 hstep with hpush | hpop | hsame
      · obtain ⟨address, hst, hlt⟩ := hpush
        rw [hst]
        unfold normalFramesBelow at *
        apply List.Chain'.cons' hord
        intro y hy _
        cases hcs : p.call_stack_ with
        | nil => rw [hcs] at hy; simp at hy
        | cons top rest =>
          rw [hcs] at hy hlt
          simp at hy
          subst hy
          simpa [prevFrame] using hlt
      · obtain ⟨c, hst⟩ := hpop
        unfold normalFramesBelow at *
        rw [hst] at hord
        exact hord.tail
      · rw [hsame]; exact hord

theorem run_normalFramesBelow (sdk : AmxSdk) (hookResult : DebugHook → AMX → Int) :
    ∀ (events : List EngineEvent) (p p1 : Profiler), normalFramesBelow p.call_stack_ →
      (∀ e, e ∈ events → notExplicitNormalEntry e = true) →
      runEvents sdk hookResult events p = Except.ok p1 → normalFramesBelow p1.call_stack_ := by
  intro events
  induction events with
  | nil =>
    intro p p1 hord _ hrun
    simp only [runEvents] at hrun
    cases hrun
    exact hord
  | cons e es ih =>
    intro p p1 hord hcall hrun
    simp only [runEvents] at hrun
    cases hd : e.deliver sdk hookResult p with
    | error err => rw [hd] at hrun; cases hrun
    | ok p2 =>
      rw [hd] at hrun
      exact ih p2 p1
        (deliver_normalFramesBelow sdk hookResult e p p2 hord
          (hcall e (List.mem_cons_self _ _)) hd)
        (fun e1 he1 => hcall e1 (List.mem_cons_of_mem _ he1)) hrun

theorem hostEvents_notExplicitNormalEntry (sdk : AmxSdk) :
    ∀ (signals : List HostSignal) (e : EngineEvent), e ∈ hostEvents sdk signals →
      notExplicitNormalEntry e = true := by
  intro signals
  induction signals with
  | nil => intro e he; simp [hostEvents] at he
  | cons h hs ih =>
    intro e he
    simp only [hostEvents, List.mem_append] at he
    rcases he with he | he
    · cases h with
      | step amx timer =>
        simp only [HostSignal.toEvents, List.mem_singleton] at he
        rw [he]; rfl
      | execBegin amx timer index =>
        by_cases hidx : index ≥ 0 ∨ index = sdk.AMX_EXEC_MAIN
        · simp only [HostSignal.toEvents, if_pos hidx, List.mem_singleton] at he
          rw [he]; rfl
        · simp [HostSignal.toEvents, if_neg hidx] at he
      | execEnd index =>
        by_cases hidx : index ≥ 0 ∨ index = sdk.AMX_EXEC_MAIN
        · simp only [HostSignal.toEvents, if_pos hidx, List.mem_singleton] at he
          rw [he]; rfl
        · simp [HostSignal.toEvents, if_neg hidx] at he
      | callbackBegin amx timer index =>
        simp only [HostSignal.toEvents, List.mem_singleton] at he
        rw [he]; rfl
      | callbackEnd index =>
        simp only [HostSignal.toEvents, List.mem_singleton] at he
        rw [he]; rfl
    · exact ih e he

/-- C12 as stated fails: two step signals that enter nested normal functions,
at frame pointer 50 and then at frame pointer 30, lead from the empty stack
to a stack whose top frame records 30 and sits on a frame that records 50,
so the top frame does not record a frame pointer greater than or equal to
that of the frame below it. The reverse order does not hold for every frame
either: the signals of `returnThenNativeRun` lead from the empty stack to
frames that record 988, 900 and 988 from the top down, where the frame of
the native sits on the frame of a normal function that has returned. -/
theorem nested_step_entries_record_lower_frame_pointers :
    (∃ p top below,
      runEvents pawnSdk sampleHookResult nestedSteps freshProfiler = Except.ok p ∧
      p.call_stack_ = [top, below] ∧ top.frame = 30 ∧ below.frame = 50 ∧
      ¬ (top.frame ≥ below.frame)) ∧
    (∃ p, runHost pawnSdk sampleHookResult returnThenNativeRun freshProfiler = Except.ok p ∧
      p.call_stack_.map (fun c => (c.function.type, c.frame)) =
        [(FunctionType.NATIVE, 988), (FunctionType.NORMAL, 900), (FunctionType.PUBLIC, 988)]) :=
  ⟨⟨_, _, _, rfl, rfl, rfl, rfl, by decide⟩, ⟨_, rfl, rfl⟩⟩

/-- C12, amended: in every state reached from the empty stack by step signals
and explicit call signals (the entries and exits of `Exec` and `Callback`),
every frame of a normal function on the call stack, which is a frame that
the entry rule of the step signal pushed, records a frame pointer strictly
less than that of the frame directly below it. A frame that `Debug` pushes
in such a state is a frame of a normal function that records the current
frame pointer, which is strictly less than the reference: the frame pointer
recorded in the frame it is pushed on, or `stp` on the empty stack. -/
theorem frames_of_normal_functions_record_lower_frame_pointers (sdk : AmxSdk)
    (hookResult : DebugHook → AMX → Int) (signals : List HostSignal) (p p1 : Profiler)
    (hstack : p.call_stack_ = [])
    (hrun : runHost sdk hookResult signals p = Except.ok p1) :
    (∀ above upper lower rest, p1.call_stack_ = above ++ upper :: lower :: rest →
      upper.function.type = FunctionType.NORMAL → upper.frame < lower.frame) ∧
    (∀ amx timer out c, Profiler.Debug sdk hookResult amx timer p1 = Except.ok out →
      out.profiler.call_stack_ = c :: p1.call_stack_ →
      c.function.type = FunctionType.NORMAL ∧ c.frame = amx.frm ∧
      ((p1.call_stack_ = [] ∧ c.frame < amx.stp) ∨
        (∃ top rest, p1.call_stack_ = top :: rest ∧ c.frame < top.frame))) := by
  have hord : normalFramesBelow p1.call_stack_ :=
    run_normalFramesBelow sdk hookResult (hostEvents sdk signals) p p1
      (by rw [hstack]; exact List.chain'_nil)
      (hostEvents_notExplicitNormalEntry sdk signals) hrun
  constructor
  · intro above upper lower rest hst
    unfold normalFramesBelow at hord
    rw [hst] at hord
    exact (List.chain'_cons.1 hord.right_of_append).1
  · intro amx timer out c hdebug hst
    obtain ⟨p2, hstep, hout⟩ := (Debug_ok_iff sdk hookResult amx timer p1 out).1 hdebug
    rw [hout, forwardToSavedHook_profiler] at hst
    rcases debugStep_push_or_not sdk amx timer p1 p2 hstep with hpush | hpop | hsame
    · obtain ⟨address, hst1, hlt⟩ := hpush
      rw [hst1] at hst
      have hc := (List.cons.inj hst).1
      rw [← hc]
      exact ⟨rfl, rfl, prevFrame_lt_cases amx p1.call_stack_ amx.frm hlt⟩
    · obtain ⟨c1, hst1⟩ := hpop
      have hlen := congrArg List.length hst1
      rw [hst] at hlen
      simp at hlen
      omega
    · rw [hsame] at hst
      have hlen := congrArg List.length hst
      simp at hlen

/-- C12, amended, at a concrete input: the signals of `nativeCallRun` lead from
the fresh profiler to `insideNative`, where the frame of `Normal(40)`
records 50 and sits on the frame of `Public(0)`, which records 988. -/
theorem frames_of_normal_functions_witness :
    freshProfiler.call_stack_ = [] ∧
    runHost pawnSdk sampleHookResult nativeCallRun freshProfiler = Except.ok insideNative ∧
    insideNative.call_stack_.map (fun c => (c.function.type, c.frame)) =
      [(FunctionType.NATIVE, 50), (FunctionType.NORMAL, 50), (FunctionType.PUBLIC, 988)] ∧
    (∀ above upper lower rest, insideNative.call_stack_ = above ++ upper :: lower :: rest →
      upper.function.type = FunctionType.NORMAL → upper.frame < lower.frame) :=
  ⟨rfl, rfl, rfl,
    (frames_of_normal_functions_record_lower_frame_pointers pawnSdk sampleHookResult
      nativeCallRun freshProfiler insideNative rfl rfl).1⟩

/-! ## Child time -/

theorem mem_setModify (f : Function) (g : Function → Function) (r : Function) :
    ∀ fs : List Function, r ∈ setModify f g fs → r ∈ fs ∨ ∃ r0, r0 ∈ fs ∧ r = g r0 := by
  intro fs
  induction fs with
  | nil => intro h; simp [setModify] at h
  | cons x xs ih =>
    intro h
    by_cases hx : x.equals f = true
    · simp only [setModify, hx, if_true] at h
      rcases List.mem_cons.1 h with h1 | h1
      · exact Or.inr ⟨x, List.mem_cons_self _ _, h1⟩
      · exact Or.inl (List.mem_cons_of_mem _ h1)
    · simp only [setModify, hx] at h
      rcases List.mem_cons.1 h with h1 | h1
      · exact Or.inl (h1 ▸ List.mem_cons_self _ _)
      · rcases ih h1 with h2 | ⟨r0, h2, h3⟩
        · exact Or.inl (List.mem_cons_of_mem _ h2)
        · exact Or.inr ⟨r0, List.mem_cons_of_mem _ h2, h3⟩

theorem mem_setInsert (f r : Function) (fs : List Function) (h : r ∈ setInsert f fs) :
    r ∈ fs ∨ r = f := by
  unfold setInsert at h
  cases hfind : setFind f fs with
  | none =>
    rw [hfind] at h
    simpa using h
  | some r0 =>
    rw [hfind] at h
    exact Or.inl h

theorem childZero_EnterFunction (call : CallInfo) (p : Profiler)
    (hcall : call.function.child_time = 0)
    (h : ∀ r, r ∈ p.functions_ → r.child_time = 0) :
    ∀ r, r ∈ (p.EnterFunction call).functions_ → r.child_time = 0 := by
  intro r hr
  unfold Profiler.EnterFunction at hr
  cases hfind : setFind call.function p.functions_ with
  | none =>
    simp only [hfind] at hr
    rcases mem_setInsert _ _ _ hr with h1 | h1
    · exact h r h1
    · rw [h1]; simpa [Function.IncreaseCalls] using hcall
  | some r0 =>
    simp only [hfind] at hr
    rcases mem_setModify _ _ _ _ hr with h1 | ⟨r1, h1, h2⟩
    · exact h r h1
    · rw [h2]; simpa [Function.IncreaseCalls] using h r1 h1

theorem childZero_accumulateTime (f : Function) (timer : Timer) (fs : List Function)
    (h : ∀ r, r ∈ fs → r.child_time = 0) :
    ∀ r, r ∈ accumulateTime f timer fs → r.child_time = 0 := by
  intro r hr
  unfold accumulateTime at hr
  cases hfind : setFind f fs with
  | none => rw [hfind] at hr; exact h r hr
  | some r0 =>
    rw [hfind] at hr
    rcases mem_setModify _ _ _ _ hr with h1 | ⟨r1, h1, h2⟩
    · exact h r h1
    · rw [h2]; simpa [Function.AdjustTime] using h r1 h1

theorem childZero_leaveLoop (f : Function) :
    ∀ (st : CallStack) (fs : List Function) (st1 : CallStack) (fs1 : List Function),
      leaveLoop f st fs = Except.ok (st1, fs1) → (∀ r, r ∈ fs → r.child_time = 0) →
      ∀ r, r ∈ fs1 → r.child_time = 0 := by
  intro st
  induction st with
  | nil => intro fs st1 fs1 h; simp [leaveLoop] at h
  | cons c rest ih =>
    intro fs st1 fs1 h hz
    by_cases hc : c.function.equals f = true
    · simp [leaveLoop, hc] at h
      rw [← h.2]
      exact childZero_accumulateTime f c.timer fs hz
    · simp [leaveLoop, hc] at h
      exact ih _ _ _ h (childZero_accumulateTime f c.timer fs hz)

theorem childZero_LeaveFunction (f : Function) (p p1 : Profiler)
    (h : p.LeaveFunction f = Except.ok p1) (hz : ∀ r, r ∈ p.functions_ → r.child_time = 0) :
    ∀ r, r ∈ p1.functions_ → r.child_time = 0 := by
  unfold Profiler.LeaveFunction at h
  cases hl : leaveLoop f p.call_stack_ p.functions_ with
  | error e => rw [hl] at h; cases h
  | ok res =>
    obtain ⟨st1, fs1⟩ := res
    rw [hl] at h
    cases h
    exact childZero_leaveLoop f _ _ _ _ hl hz

/-- What the step of `Debug` does to the profiler: an entry of a normal
function, an exit for the function of the top frame, or nothing. -/
theorem debugStep_cases (sdk : AmxSdk) (amx : AMX) (timer : Timer) (p p1 : Profiler)
    (h : debugStep sdk amx timer p = Except.ok p1) :
    (∃ address, p1 = p.EnterFunction ⟨Function.Normal address, amx.frm, timer⟩) ∨
    (∃ top : CallInfo, p.LeaveFunction top.function = Except.ok p1) ∨
    p1 = p := by
  unfold debugStep at h
  by_cases hlt : amx.frm < prevFrame amx p.call_stack_
  · rw [if_pos hlt] at h
    by_cases hop : ReadAmxCode amx (toCell sdk (amx.cip - 2 * (sdk.sizeof_cell : Int))) = 46
    · rw [if_pos hop] at h
      cases h
      exact Or.inl ⟨_, rfl⟩
    · rw [if_neg hop] at h
      cases h
      exact Or.inr (Or.inr rfl)
  · rw [if_neg hlt] at h
    by_cases hgt : amx.frm > prevFrame amx p.call_stack_
    · rw [if_pos hgt] at h
      cases hcs : p.call_stack_ with
      | nil => rw [hcs] at h; simp [CallStack.GetTop] at h
      | cons top rest =>
        rw [hcs] at h
        simp only [CallStack.GetTop] at h
        by_cases hpub : top.function.type = FunctionType.PUBLIC
        · rw [if_pos hpub] at h
          exact Or.inr (Or.inl ⟨top, h⟩)
        · rw [if_neg hpub] at h
          cases h
          exact Or.inr (Or.inr rfl)
    · rw [if_neg hgt] at h
      cases h
      exact Or.inr (Or.inr rfl)

theorem childZero_deliver (sdk : AmxSdk) (hookResult : DebugHook → AMX → Int)
    (e : EngineEvent) (p p1 : Profiler) (hd : e.deliver sdk hookResult p = Except.ok p1)
    (hz : ∀ r, r ∈ p.functions_ → r.child_time = 0) :
    ∀ r, r ∈ p1.functions_ → r.child_time = 0 := by
  cases e with
  | explicit s =>
    cases s with
    | enter t k frame timer =>
      simp only [EngineEvent.deliver, Signal.deliver] at hd
      cases hd
      exact childZero_EnterFunction _ p rfl hz
    | leave t k =>
      simp only [EngineEvent.deliver, Signal.deliver] at hd
      exact childZero_LeaveFunction _ p p1 hd hz
  | step amx timer =>
    simp only [EngineEvent.deliver] at hd
    cases hdebug : Profiler.Debug sdk hookResult amx timer p with
    | error err => rw [hdebug] at hd; cases hd
    | ok out =>
      rw [hdebug] at hd
      cases hd
      obtain ⟨p2, hstep, hout⟩ := (Debug_ok_iff sdk hookResult amx timer p out).1 hdebug
      rw [hout, forwardToSavedHook_profiler]
      rcases debugStep_cases sdk amx timer p p2 hstep with ⟨a, he⟩ | ⟨top, hl⟩ | hsame
      · rw [he]; exact childZero_EnterFunction _ p rfl hz
      · exact childZero_LeaveFunction _ p p2 hl hz
      · rw [hsame]; exact hz

theorem childZero_run (sdk : AmxSdk) (hookResult : DebugHook → AMX → Int) :
    ∀ (events : List EngineEvent) (p p1 : Profiler),
      runEvents sdk hookResult events p = Except.ok p1 →
      (∀ r, r ∈ p.functions_ → r.child_time = 0) →
      ∀ r, r ∈ p1.functions_ → r.child_time = 0 := by
  intro events
  induction events with
  | nil =>
    intro p p1 hrun hz
    simp only [runEvents] at hrun
    cases hrun
    exact hz
  | cons e es ih =>
    intro p p1 hrun hz
    simp only [runEvents] at hrun
    cases hd : e.deliver sdk hookResult p with
    | error err => rw [hd] at hrun; cases hrun
    | ok p2 =>
      rw [hd] at hrun
      exact ih p2 p1 hrun (childZero_deliver sdk hookResult e p p2 hd hz)

/-- C13: in every state reached from an empty statistics table by entries,
exits and step signals (an explicit call signal is the entry before the host
call and the exit after it), every record has a child time of zero, so its
self time, total time minus child time, equals its total time and does not
exceed it. `Exec` and `Callback` keep the child times at zero in such a
state when the host call they wrap does. -/
theorem child_time_is_never_attributed (sdk : AmxSdk) (hookResult : DebugHook → AMX → Int)
    (events : List EngineEvent) (p p1 : Profiler) (htable : p.functions_ = [])
    (hrun : runEvents sdk hookResult events p = Except.ok p1) :
    (∀ r, r ∈ p1.functions_ →
      r.child_time = 0 ∧ r.self_time = r.time ∧ r.self_time ≤ r.time) ∧
    (∀ (amx : AMX) (host : Profiler → Int × Profiler) (timer : Timer) (index e : Int)
        (q : Profiler),
      (∀ q0 : Profiler, (∀ r, r ∈ q0.functions_ → r.child_time = 0) →
        ∀ r, r ∈ (host q0).2.functions_ → r.child_time = 0) →
      (Profiler.Exec sdk amx host timer index p1 = Except.ok (e, q) ∨
        Profiler.Callback amx host timer index p1 = Except.ok (e, q)) →
      ∀ r, r ∈ q.functions_ → r.child_time = 0) := by
  have hz : ∀ r, r ∈ p1.functions_ → r.child_time = 0 :=
    childZero_run sdk hookResult events p p1 hrun (by rw [htable]; intro r hr; simp at hr)
  constructor
  · intro r hr
    have h0 := hz r hr
    simp [Function.self_time, h0]
  · intro amx host timer index e q hhost hcall
    rcases hcall with hexec | hcb
    · unfold Profiler.Exec at hexec
      by_cases hidx : index ≥ 0 ∨ index = sdk.AMX_EXEC_MAIN
      · rw [if_pos hidx] at hexec
        simp only [] at hexec
        cases hl : (host (p1.EnterFunction ⟨Function.Public index,
            toCell sdk (amx.stk - 3 * (sdk.sizeof_cell : Int)), timer⟩)).2.LeaveFunction
            (Function.Public index) with
        | error err => rw [hl] at hexec; cases hexec
        | ok p3 =>
          rw [hl] at hexec
          cases hexec
          exact childZero_LeaveFunction _ _ _ hl
            (hhost _ (childZero_EnterFunction _ p1 rfl hz))
      · rw [if_neg hidx] at hexec
        cases hexec
        exact hhost p1 hz
    · unfold Profiler.Callback at hcb
      simp only [] at hcb
      cases hl : (host (p1.EnterFunction ⟨Function.Native index, amx.frm,
          timer⟩)).2.LeaveFunction (Function.Native index) with
      | error err => rw [hl] at hcb; cases hcb
      | ok p3 =>
        rw [hl] at hcb
        cases hcb
        exact childZero_LeaveFunction _ _ _ hl
          (hhost _ (childZero_EnterFunction _ p1 rfl hz))

/-- C13 at a concrete input: the run `mixedRun` from the fresh profiler
leaves three records, each with a child time of zero. -/
theorem child_time_witness :
    freshProfiler.functions_ = [] ∧
    ∃ p1, runEvents pawnSdk sampleHookResult mixedRun freshProfiler = Except.ok p1 ∧
      p1.functions_.length = 3 ∧
      ∀ r, r ∈ p1.functions_ →
        r.child_time = 0 ∧ r.self_time = r.time ∧ r.self_time ≤ r.time := by
  refine ⟨rfl, _, rfl, rfl, ?_⟩
  exact (child_time_is_never_attributed pawnSdk sampleHookResult mixedRun freshProfiler _ rfl
    rfl).1

/-! ## Forwarding and safety of the step signal -/

/-- C14 as stated fails: on the empty call stack of `hookedProfiler`, whose
saved hook is the foreign hook 5, a step signal with the frame pointer 2000
above `stp`, 1000, makes `Debug` read the top of the empty stack; it fails
with `EmptyStackError`, so it forwards the signal to no hook and returns no
result of the hook. -/
theorem Debug_above_stp_on_empty_stack_forwards_nothing :
    hookedProfiler.debug_ = some (DebugHook.other 5) ∧
    hookedProfiler.call_stack_ = [] ∧
    (sampleAmx 2000 0).frm > (sampleAmx 2000 0).stp ∧
    Profiler.Debug pawnSdk sampleHookResult (sampleAmx 2000 0) { total_time := 0 }
        hookedProfiler = Except.error ProfilerError.EmptyStackError ∧
    ¬ ∃ out, Profiler.Debug pawnSdk sampleHookResult (sampleAmx 2000 0) { total_time := 0 }
        hookedProfiler = Except.ok out := by
  have herr : Profiler.Debug pawnSdk sampleHookResult (sampleAmx 2000 0) { total_time := 0 }
      hookedProfiler = Except.error ProfilerError.EmptyStackError := rfl
  refine ⟨rfl, rfl, by decide, herr, ?_⟩
  rintro ⟨out, hout⟩
  rw [herr] at hout
  cases hout

/-- C14, amended: when the current frame pointer equals the reference (`stp`
on the empty call stack, the frame pointer recorded in the top frame
otherwise), `Debug` succeeds and leaves the profiler, hence the call stack
and the statistics table, unchanged. Whenever the call stack is not empty or
the current frame pointer does not exceed `stp`, `Debug` succeeds, keeps the
saved hook, forwards the signal to the saved hook exactly once and returns
the result of that hook; with no saved hook it forwards to nothing and
returns `AMX_ERR_NONE`. The saved hook of the profiler that `Attach`
registers is the hook that the AMX had before `Attach`. -/
theorem Debug_forwards_to_hook_saved_before_attach (sdk : AmxSdk)
    (hookResult : DebugHook → AMX → Int) (amx : AMX) (timer : Timer) (p : Profiler)
    (hsafe : p.call_stack_ = [] → amx.frm ≤ amx.stp) :
    ((p.call_stack_ = [] ∧ amx.frm = amx.stp) ∨
        (∃ top rest, p.call_stack_ = top :: rest ∧ amx.frm = top.frame) →
      ∃ out, Profiler.Debug sdk hookResult amx timer p = Except.ok out ∧ out.profiler = p) ∧
    (∃ out, Profiler.Debug sdk hookResult amx timer p = Except.ok out ∧
      out.profiler.debug_ = p.debug_ ∧
      (∀ hook, p.debug_ = some hook →
        out.forwarded = [hook] ∧ out.result = hookResult hook amx) ∧
      (p.debug_ = none → out.forwarded = [] ∧ out.result = sdk.AMX_ERR_NONE)) ∧
    (∀ h w, ∃ q, Profiler.Get h (Profiler.Attach h w) = some q ∧
      q.debug_ = (w.amx h).debug) := by
  refine ⟨?_, ?_, ?_⟩
  · intro hcase
    have heq : amx.frm = prevFrame amx p.call_stack_ := by
      rcases hcase with ⟨hcs, h⟩ | ⟨top, rest, hcs, h⟩
      · rw [hcs]; exact h
      · rw [hcs]; exact h
    refine ⟨forwardToSavedHook sdk hookResult amx p, ?_, forwardToSavedHook_profiler _ _ _ _⟩
    rw [Debug_ok_iff]
    exact ⟨p, debugStep_equal_frames sdk amx timer p heq, rfl⟩
  · obtain ⟨p1, hstep⟩ := debugStep_ok sdk amx timer p hsafe
    have hdebug := (debugStep_effect sdk amx timer p p1 hstep).1
    refine ⟨forwardToSavedHook sdk hookResult amx p1, ?_, ?_, ?_, ?_⟩
    · rw [Debug_ok_iff]
      exact ⟨p1, hstep, rfl⟩
    · rw [forwardToSavedHook_profiler]
      exact hdebug
    · intro hook hh
      rw [← hdebug] at hh
      simp [forwardToSavedHook, hh]
    · intro hh
      rw [← hdebug] at hh
      simp [forwardToSavedHook, hh]
  · intro h w
    refine ⟨{ Profiler.new h w with active_ := true }, ?_, rfl⟩
    rw [Get_Attach]
    simp

/-- C14, amended, at concrete inputs, with the foreign hook 5 saved and 7 its
result. A step signal at the frame pointer 100 on the frame of `Normal(8)`
recorded at 100 changes nothing and is forwarded once; so is a step signal
at `stp` on the empty stack. A step signal at the frame pointer 50 on the
frame recorded at 100, two cells after the opcode 46, enters `Normal(40)`
and is forwarded once as well. -/
theorem Debug_forwards_witness :
    ((hookedNormalOnTop.call_stack_ = [] → (sampleAmx 100 0).frm ≤ (sampleAmx 100 0).stp) ∧
      Profiler.Debug pawnSdk sampleHookResult (sampleAmx 100 0) { total_time := 0 }
          hookedNormalOnTop =
        Except.ok { result := 7, profiler := hookedNormalOnTop,
                    forwarded := [DebugHook.other 5] }) ∧
    ((hookedProfiler.call_stack_ = [] → (sampleAmx 1000 0).frm ≤ (sampleAmx 1000 0).stp) ∧
      ∃ out, Profiler.Debug pawnSdk sampleHookResult (sampleAmx 1000 0) { total_time := 0 }
          hookedProfiler = Except.ok out ∧
        out.profiler = hookedProfiler ∧
        out.forwarded = [DebugHook.other 5] ∧ out.result = 7) ∧
    ∃ out, Profiler.Debug pawnSdk sampleHookResult (sampleAmx 50 48) { total_time := 0 }
        hookedNormalOnTop = Except.ok out ∧
      out.profiler.call_stack_.length = 2 ∧
      out.forwarded = [DebugHook.other 5] ∧ out.result = 7 := by
  have hsafe1 : hookedNormalOnTop.call_stack_ = [] →
      (sampleAmx 100 0).frm ≤ (sampleAmx 100 0).stp := fun _ => by decide
  have hsafe2 : hookedProfiler.call_stack_ = [] →
      (sampleAmx 1000 0).frm ≤ (sampleAmx 1000 0).stp := fun _ => by decide
  have hsafe3 : hookedNormalOnTop.call_stack_ = [] →
      (sampleAmx 50 48).frm ≤ (sampleAmx 50 48).stp := fun _ => by decide
  refine ⟨⟨hsafe1, rfl⟩, ⟨hsafe2, ?_⟩, ?_⟩
  · have h := Debug_forwards_to_hook_saved_before_attach pawnSdk sampleHookResult
      (sampleAmx 1000 0) { total_time := 0 } hookedProfiler hsafe2
    obtain ⟨out, h1, h2⟩ := h.1 (Or.inl ⟨rfl, rfl⟩)
    obtain ⟨out2, h3, _, h5, _⟩ := h.2.1
    have hsame : out2 = out := by
      rw [h1] at h3
      cases h3
      rfl
    rw [hsame] at h5
    exact ⟨out, h1, h2, (h5 (DebugHook.other 5) rfl).1,
      (h5 (DebugHook.other 5) rfl).2.trans rfl⟩
  · obtain ⟨out, h1, _, h3, _⟩ := (Debug_forwards_to_hook_saved_before_attach pawnSdk
      sampleHookResult (sampleAmx 50 48) { total_time := 0 } hookedNormalOnTop hsafe3).2.1
    have hlen : out.profiler.call_stack_.length = 2 := by
      have hrun : Profiler.Debug pawnSdk sampleHookResult (sampleAmx 50 48) { total_time := 0 }
          hookedNormalOnTop = Except.ok
            (forwardToSavedHook pawnSdk sampleHookResult (sampleAmx 50 48)
              (hookedNormalOnTop.EnterFunction
                ⟨Function.Normal 40, 50, { total_time := 0 }⟩)) := rfl
      rw [hrun] at h1
      cases h1
      rfl
    exact ⟨out, h1, hlen, (h3 (DebugHook.other 5) rfl).1,
      (h3 (DebugHook.other 5) rfl).2.trans rfl⟩

/-- C15: when the current frame pointer does not exceed `stp`, `Debug`
succeeds; in particular it does not fail with `EmptyStackError`, the outcome
of reading the top of, or popping from, an empty call stack. In every state,
a `Debug` that succeeds pushes one frame on the call stack, pops one frame
from it, or leaves it unchanged. -/
theorem Debug_is_safe_below_stack_top_and_moves_one_frame (sdk : AmxSdk)
    (hookResult : DebugHook → AMX → Int) (amx : AMX) (timer : Timer) (p : Profiler)
    (hfrm : amx.frm ≤ amx.stp) :
    (∃ out, Profiler.Debug sdk hookResult amx timer p = Except.ok out) ∧
    Profiler.Debug sdk hookResult amx timer p ≠ Except.error ProfilerError.EmptyStackError ∧
    (∀ (amx1 : AMX) (timer1 : Timer) (p0 : Profiler) (out : DebugOutcome),
      Profiler.Debug sdk hookResult amx1 timer1 p0 = Except.ok out →
      (∃ c, out.profiler.call_stack_ = c :: p0.call_stack_) ∨
      (∃ c, p0.call_stack_ = c :: out.profiler.call_stack_) ∨
      out.profiler.call_stack_ = p0.call_stack_) := by
  obtain ⟨p1, hstep⟩ := debugStep_ok sdk amx timer p (fun _ => hfrm)
  have hok : Profiler.Debug sdk hookResult amx timer p =
      Except.ok (forwardToSavedHook sdk hookResult amx p1) := by
    rw [Debug_ok_iff]
    exact ⟨p1, hstep, rfl⟩
  refine ⟨⟨_, hok⟩, ?_, ?_⟩
  · rw [hok]
    intro h
    cases h
  · intro amx1 timer1 p0 out hdebug
    obtain ⟨p2, hstep2, hout⟩ := (Debug_ok_iff sdk hookResult amx1 timer1 p0 out).1 hdebug
    rw [hout, forwardToSavedHook_profiler]
    obtain ⟨_, hpush | hpop | hsame⟩ := debugStep_effect sdk amx1 timer1 p0 p2 hstep2
    · obtain ⟨c, hst, _, _⟩ := hpush
      exact Or.inl ⟨c, hst⟩
    · exact Or.inr (Or.inl hpop)
    · exact Or.inr (Or.inr hsame)

/-- C15 at a concrete input: a step signal at frame pointer 200, below `stp`,
with the frame of `Public(0)` recorded at 100 on top, pops that frame. -/
theorem Debug_is_safe_witness :
    (sampleAmx 200 0).frm ≤ (sampleAmx 200 0).stp ∧
    (∃ out, Profiler.Debug pawnSdk sampleHookResult (sampleAmx 200 0) { total_time := 0 }
      publicOnTop = Except.ok out) ∧
    Profiler.Debug pawnSdk sampleHookResult (sampleAmx 200 0) { total_time := 0 } publicOnTop ≠
      Except.error ProfilerError.EmptyStackError := by
  have h := Debug_is_safe_below_stack_top_and_moves_one_frame pawnSdk sampleHookResult
    (sampleAmx 200 0) { total_time := 0 } publicOnTop (by decide)
  exact ⟨by decide, h.1, h.2.1⟩

end samp_profiler
